import Mathlib

/-!
# libhttpserver: endpoint resolution and request dispatch

A shallow embedding of `src/Webserver.cpp`.  `Webserver::answerToConnection`,
`not_found_page`, `method_not_acceptable_page`, `uri_log` and `internal_unescaper`
are translated from the source.  The classes they use but whose code is not in
`Webserver.cpp` (`HttpEndpoint`, `HttpRequest`, `HttpResponse`, `HttpUtils`) are
modelled from the specification, and the libmicrohttpd calls are fields of `Env`.
-/

namespace httpserver

/-! ## Constants of libmicrohttpd (microhttpd.h) used by Webserver.cpp -/

/-- The value libmicrohttpd gives `MHD_YES`. -/
def MHD_YES : Nat := 1

/-- The value libmicrohttpd gives `MHD_NO`. -/
def MHD_NO : Nat := 0

/-- The value libmicrohttpd gives `MHD_HTTP_NOT_FOUND`. -/
def MHD_HTTP_NOT_FOUND : Nat := 404

/-- The value libmicrohttpd gives `MHD_HTTP_METHOD_NOT_ACCEPTABLE`
(`MHD_HTTP_METHOD_NOT_ALLOWED` is 405 there). -/
def MHD_HTTP_METHOD_NOT_ACCEPTABLE : Nat := 406

/-- The header name behind `MHD_HTTP_HEADER_CONTENT_ENCODING`. -/
def MHD_HTTP_HEADER_CONTENT_ENCODING : String := "Content-Encoding"

/-- The header name behind `MHD_HTTP_HEADER_CONTENT_TYPE`, which is what
`HttpUtils::http_header_content_type` holds. -/
def http_header_content_type : String := "Content-Type"

def MHD_HTTP_METHOD_CONNECT : String := "CONNECT"

def MHD_HTTP_METHOD_DELETE : String := "DELETE"

def MHD_HTTP_METHOD_GET : String := "GET"

def MHD_HTTP_METHOD_HEAD : String := "HEAD"

def MHD_HTTP_METHOD_POST : String := "POST"

def MHD_HTTP_METHOD_PUT : String := "PUT"

def MHD_HTTP_METHOD_TRACE : String := "TRACE"

def MHD_HTTP_POST_ENCODING_FORM_URLENCODED : String := "application/x-www-form-urlencoded"

/-! ## Endpoints -/

/-- Modelled from the spec: one segment of an endpoint template (spec §3,
`Endpoint.template`): a literal string or a named-parameter placeholder.  The class
`HttpEndpoint` is declared and defined outside `Webserver.cpp`. -/
inductive Segment where
  | literal (text : String)
  | placeholder (name : String)
  deriving DecidableEq, Repr

/-- Modelled from the spec: the compiled endpoint of spec §3 (`template`, `isFamily`);
`HttpEndpoint` of the source, whose definition is not in `Webserver.cpp`.  The source
registers the family flag as a separate boolean (`registerResource`, line 306). -/
structure HttpEndpoint where
  template : List Segment
  family_url : Bool
  deriving DecidableEq, Repr

/-- The default-constructed `HttpEndpoint matchingEndpoint;` of line 587. -/
instance : Inhabited HttpEndpoint := ⟨⟨[], false⟩⟩

/-- Modelled from the spec: the textual form of a template segment, a piece of
`get_url_pieces()`; `HttpEndpoint` is defined outside `Webserver.cpp`. -/
def Segment.piece : Segment → String
  | .literal text => text
  | .placeholder name => "\x7b" ++ name ++ "\x7d"

/-- Modelled from the spec: `paramPositions` of spec §3, the ordered (parameter name,
segment index) pairs derived from the template, counting indices from `i`. -/
def paramPositionsFrom : Nat → List Segment → List (String × Nat)
  | _, [] => []
  | i, .literal _ :: rest => paramPositionsFrom (i + 1) rest
  | i, .placeholder name :: rest => (name, i) :: paramPositionsFrom (i + 1) rest

/-- Modelled from the spec: `paramPositions` of the whole template. -/
def HttpEndpoint.paramPositions (e : HttpEndpoint) : List (String × Nat) :=
  paramPositionsFrom 0 e.template

/-- Modelled from the spec: the accessor `get_url_pieces()` of `HttpEndpoint`, one
piece per template segment. -/
def HttpEndpoint.get_url_pieces (e : HttpEndpoint) : List String :=
  e.template.map Segment.piece

/-- Modelled from the spec: the accessor `get_url_pars()` of `HttpEndpoint`, the
parameter names of `paramPositions` in template order. -/
def HttpEndpoint.get_url_pars (e : HttpEndpoint) : List String :=
  e.paramPositions.map Prod.fst

/-- Modelled from the spec: the accessor `get_chunk_positions()` of `HttpEndpoint`,
the segment index of each parameter of `paramPositions`. -/
def HttpEndpoint.get_chunk_positions (e : HttpEndpoint) : List Nat :=
  e.paramPositions.map Prod.snd

/-- Modelled from the spec: whether a template segment accepts a path segment.  A
literal requires equality, a placeholder matches any non-empty literal (spec §4.1). -/
def Segment.accepts : Segment → String → Bool
  | .literal text, p => decide (text = p)
  | .placeholder _, p => decide (p ≠ "")

/-- Modelled from the spec: every template segment accepts the path segment at its
position; the path may be longer than the template. -/
def segmentsAccept : List Segment → List String → Bool
  | [], _ => true
  | _ :: _, [] => false
  | s :: ss, p :: ps => s.accepts p && segmentsAccept ss ps

/-- Modelled from the spec: `HttpEndpoint::match` (spec §4.2 step 3).  A non-family
endpoint requires identical segment count and every literal position to match; a
family endpoint requires the path to have at least as many segments as the endpoint
and the endpoint's own segments to match. -/
def HttpEndpoint.match_url (self url : HttpEndpoint) : Bool :=
  if self.family_url then
    decide (self.template.length ≤ url.get_url_pieces.length)
      && segmentsAccept self.template url.get_url_pieces
  else
    decide (self.template.length = url.get_url_pieces.length)
      && segmentsAccept self.template url.get_url_pieces

/-- Modelled from the spec: the part of a segment that counts for key identity;
a placeholder name is not part of it (spec §3, Endpoint invariant). -/
def Segment.key : Segment → Option String
  | .literal text => some text
  | .placeholder _ => none

/-- Modelled from the spec: two endpoints are the same map key iff their
literal-and-placeholder segment sequences are identical (spec §3); this is the
equivalence `operator<` of `HttpEndpoint` induces on the keys of
`registeredResources`. -/
def HttpEndpoint.sameKey (a b : HttpEndpoint) : Bool :=
  decide (a.template.map Segment.key = b.template.map Segment.key)

/-- Modelled from the spec: splitting of a `/`-separated path (spec §4.1, §4.2) at
every `/`; `acc` holds the current segment reversed. -/
def splitOnSlash : List Char → List Char → List String
  | [], acc => [String.mk acc.reverse]
  | c :: cs, acc =>
    if c = '/' then String.mk acc.reverse :: splitOnSlash cs []
    else splitOnSlash cs (c :: acc)

/-- Modelled from the spec: step 1 of spec §4.2, "split the path into segments".
The leading slash opens the first segment and the root path has no segment. -/
def pathSegments (url : String) : List String :=
  match url.data with
  | [] => []
  | c :: cs =>
    let rest := if c = '/' then cs else c :: cs
    if rest.isEmpty then [] else splitOnSlash rest []

/-- Modelled from the spec: `HttpEndpoint(st_url)` of line 548, the endpoint of a
request path: every segment is a literal and the endpoint is not a family. -/
def HttpEndpoint.ofUrl (st_url : String) : HttpEndpoint :=
  ⟨(pathSegments st_url).map Segment.literal, false⟩

/-- Modelled from the spec: classification of a template piece (spec §4.1): a piece
wrapped in braces is a named placeholder, any other piece is a literal. -/
def Segment.ofPiece (p : String) : Segment :=
  match p.data with
  | '\x7b' :: rest =>
    if rest.getLast? = some '\x7d' then .placeholder (String.mk rest.dropLast)
    else .literal p
  | _ => .literal p

/-- Modelled from the spec: the `ConfigurationError` of spec §4.1 for a malformed
template. -/
inductive ConfigurationError where
  | emptySegment
  | duplicateParameter
  deriving DecidableEq, Repr

/-- Modelled from the spec: `HttpEndpoint(resource, family, true)` of line 306, the
registration-time construction of spec §4.1.  An empty segment or a duplicate
parameter name is a `ConfigurationError`. -/
def HttpEndpoint.ofTemplate (resource : String) (family : Bool) :
    Except ConfigurationError HttpEndpoint :=
  let pieces := pathSegments resource
  if pieces.any (fun p => decide (p = "")) then .error .emptySegment
  else
    let e : HttpEndpoint := ⟨pieces.map Segment.ofPiece, family⟩
    if e.get_url_pars.Nodup then .ok e else .error .duplicateParameter

/-! ## Requests and responses -/

/-- Modelled from the spec: assignment into a string-keyed mapping whose keys are
unique, last write wins (spec §3, Request).  This is `m[key] = value` on the
`std::map` members of `HttpRequest`. -/
def assign : List (String × String) → String → String → List (String × String)
  | [], key, value => [(key, value)]
  | (k, v) :: rest, key, value =>
    if k = key then (k, value) :: rest else (k, v) :: assign rest key value

/-- Modelled from the spec: the Request accumulator of spec §3.  `HttpRequest` is
declared and defined outside `Webserver.cpp`. -/
structure HttpRequest where
  path : String := ""
  method : String := ""
  version : String := ""
  headers : List (String × String) := []
  footers : List (String × String) := []
  cookies : List (String × String) := []
  args : List (String × String) := []
  content : String := ""
  requestor : String := ""
  requestorPort : Nat := 0
  user : String := ""
  pass : String := ""
  deriving DecidableEq, Repr

/-- Modelled from the spec: `HttpRequest::setPath` writes the path. -/
def HttpRequest.setPath (r : HttpRequest) (path : String) : HttpRequest :=
  { r with path := path }

/-- Modelled from the spec: `HttpRequest::setMethod` writes the method. -/
def HttpRequest.setMethod (r : HttpRequest) (method : String) : HttpRequest :=
  { r with method := method }

/-- Modelled from the spec: `HttpRequest::setVersion` writes the protocol version. -/
def HttpRequest.setVersion (r : HttpRequest) (version : String) : HttpRequest :=
  { r with version := version }

/-- Modelled from the spec: `HttpRequest::setRequestor` writes the client address. -/
def HttpRequest.setRequestor (r : HttpRequest) (requestor : String) : HttpRequest :=
  { r with requestor := requestor }

/-- Modelled from the spec: `HttpRequest::setRequestorPort` writes the client port. -/
def HttpRequest.setRequestorPort (r : HttpRequest) (port : Nat) : HttpRequest :=
  { r with requestorPort := port }

/-- Modelled from the spec: `HttpRequest::setUser` writes the user of the credential pair. -/
def HttpRequest.setUser (r : HttpRequest) (user : String) : HttpRequest :=
  { r with user := user }

/-- Modelled from the spec: `HttpRequest::setPass` writes the password of the credential pair. -/
def HttpRequest.setPass (r : HttpRequest) (pass : String) : HttpRequest :=
  { r with pass := pass }

/-- Modelled from the spec: headers are a mapping with unique keys, last write wins. -/
def HttpRequest.setHeader (r : HttpRequest) (key value : String) : HttpRequest :=
  { r with headers := assign r.headers key value }

/-- Modelled from the spec: trailer fields, written like headers. -/
def HttpRequest.setFooter (r : HttpRequest) (key value : String) : HttpRequest :=
  { r with footers := assign r.footers key value }

/-- Modelled from the spec: cookies, written like headers. -/
def HttpRequest.setCookie (r : HttpRequest) (key value : String) : HttpRequest :=
  { r with cookies := assign r.cookies key value }

/-- Modelled from the spec: arguments of every source merge into one mapping, last
write wins on key collision. -/
def HttpRequest.setArg (r : HttpRequest) (key value : String) : HttpRequest :=
  { r with args := assign r.args key value }

/-- Modelled from the spec: the raw body buffer is append-only. -/
def HttpRequest.growContent (r : HttpRequest) (data : String) : HttpRequest :=
  { r with content := r.content ++ data }

/-- Modelled from the spec: `HttpRequest::getHeader`, the value of header `key`, the
empty string when it is absent. -/
def HttpRequest.getHeader (r : HttpRequest) (key : String) : String :=
  (r.headers.lookup key).getD ""

/-- Modelled from the spec: the value of argument `key` in the argument mapping, if
it holds one. -/
def HttpRequest.getArg (r : HttpRequest) (key : String) : Option String :=
  r.args.lookup key

/-- Modelled from the spec: the response-kind discriminator of spec §3
(`HttpResponse::FILE_CONTENT` in line 646). -/
inductive ResponseType where
  | STRING_CONTENT
  | FILE_CONTENT
  deriving DecidableEq, Repr

/-- Modelled from the spec: the Response of spec §3, as far as
`answerToConnection` reads it. -/
structure HttpResponse where
  content : String := ""
  responseType : ResponseType := ResponseType.STRING_CONTENT
  fp : Nat := 0
  responseCode : Nat := 200
  headers : List (String × String) := []
  footers : List (String × String) := []
  deriving DecidableEq, Repr

/-- A handler is known to the table by its address (`HttpResource*`). -/
abbrev HttpResource := Nat

/-! ## The transport (libmicrohttpd) -/

/-- The payload of a libmicrohttpd response: a copied buffer
(`MHD_create_response_from_buffer`) or a file region
(`MHD_create_response_from_fd_at_offset`). -/
inductive ResponseBody where
  | buffer (data : String)
  | fd (size : Nat) (fp : Nat)
  deriving DecidableEq, Repr

/-- A `struct MHD_Response` at the time it is destroyed by the callback. -/
structure MHD_Response where
  body : ResponseBody
  headers : List (String × String) := []
  footers : List (String × String) := []
  deriving DecidableEq, Repr

/-- What the callback can query from a `struct MHD_Connection`. -/
structure MHD_Connection where
  headers : List (String × String) := []
  footers : List (String × String) := []
  cookies : List (String × String) := []
  get_arguments : List (String × String) := []
  basic_auth : Option (String × String) := none
  /-- The result of `get_ip_str` on the client address. -/
  client_ip : String := ""
  /-- The result of `get_port` on the client address. -/
  client_port : Nat := 0
  /-- What `MHD_queue_response` returns on this connection. -/
  queue_result : Nat := MHD_YES
  deriving DecidableEq, Repr

/-- The state of a libmicrohttpd post processor (its pending input). -/
abbrev MHD_PostProcessor := String

/-- Everything `answerToConnection` calls that is not defined in `Webserver.cpp`
and that the spec leaves open: these are parameters of the embedding. -/
structure Env where
  /-- The macro `NOT_FOUND_ERROR`. -/
  NOT_FOUND_ERROR : String
  /-- The macro `NOT_METHOD_ERROR`. -/
  NOT_METHOD_ERROR : String
  /-- The default decoder `http_unescape`. -/
  http_unescape : String → String
  /-- The helper `HttpUtils::standardizeUrl`. -/
  standardizeUrl : String → String
  /-- The call `MHD_create_post_processor`, which may return NULL. -/
  create_post_processor : MHD_Connection → Option MHD_PostProcessor
  /-- The call `MHD_post_process`: the new parser state and the (key, data) pairs
  it hands to `post_iterator`, in order. -/
  post_process : MHD_PostProcessor → String → MHD_PostProcessor × List (String × String)
  /-- The size `fstat` reports for a file descriptor. -/
  fstat_size : Nat → Nat
  /-- The handler behind an `HttpResource*`: `routeRequest`. -/
  routeRequest : HttpResource → HttpRequest → HttpResponse
  /-- The comparison `operator<` of `HttpEndpoint`, as far as it orders two keys
  that are not the same key: it decides where `std::map` places a new key. -/
  endpoint_less : HttpEndpoint → HttpEndpoint → Bool

/-- The members of `Webserver` that `answerToConnection` reads.
`registeredResources` is a `std::map`, listed here in its iteration order. -/
structure Webserver where
  registeredResources : List (HttpEndpoint × HttpResource) := []
  unescaper : Option (String → String) := none

/-- The per-connection context `struct ModdedRequest` (the back pointer `ws` is
the `dws` argument and is not repeated). -/
structure ModdedRequest where
  pp : Option MHD_PostProcessor := none
  completeUri : String := ""
  dhr : Option HttpRequest := none
  second : Bool := false
  deriving DecidableEq, Repr

/-- The function `uri_log` (lines 344-350): the context a connection starts with. -/
def uri_log (uri : String) : ModdedRequest :=
  { pp := none, completeUri := uri, dhr := none, second := false }

/-! ## The endpoint table -/

/-- The call `registeredResources.count(endpoint)`: 1 if a key is the same key as
`endpoint`, else 0. -/
def ResourceMap.count (t : List (HttpEndpoint × HttpResource)) (endpoint : HttpEndpoint) :
    Nat :=
  if t.any (fun it => it.1.sameKey endpoint) then 1 else 0

/-- The read `registeredResources[endpoint]` for a key that is present. -/
def ResourceMap.at (t : List (HttpEndpoint × HttpResource)) (endpoint : HttpEndpoint) :
    Option HttpResource :=
  (t.find? (fun it => it.1.sameKey endpoint)).map Prod.snd

/-- The assignment half of `registeredResources[key] = value`: the entry with the
same key keeps its key and takes the new value. -/
def ResourceMap.assignValue :
    List (HttpEndpoint × HttpResource) → HttpEndpoint → HttpResource →
    List (HttpEndpoint × HttpResource)
  | [], _, _ => []
  | (k, v) :: rest, key, value =>
    if k.sameKey key then (k, value) :: rest
    else (k, v) :: ResourceMap.assignValue rest key value

/-- The insertion half of `registeredResources[key] = value`: a new key is placed
before the first key it is less than. -/
def ResourceMap.place (less : HttpEndpoint → HttpEndpoint → Bool) :
    List (HttpEndpoint × HttpResource) → HttpEndpoint → HttpResource →
    List (HttpEndpoint × HttpResource)
  | [], key, value => [(key, value)]
  | (k, v) :: rest, key, value =>
    if less key k then (key, value) :: (k, v) :: rest
    else (k, v) :: ResourceMap.place less rest key value

/-- The write `registeredResources[key] = value` of a `std::map`: when the key is
present the entry is assigned, else a new entry is inserted. -/
def ResourceMap.insert (less : HttpEndpoint → HttpEndpoint → Bool)
    (t : List (HttpEndpoint × HttpResource)) (key : HttpEndpoint) (value : HttpResource) :
    List (HttpEndpoint × HttpResource) :=
  if ResourceMap.count t key > 0 then ResourceMap.assignValue t key value
  else ResourceMap.place less t key value

/-- The invariant of a `std::map`: no two entries have the same key. -/
def ResourceMap.Valid (t : List (HttpEndpoint × HttpResource)) : Prop :=
  t.Pairwise (fun a b => a.1.sameKey b.1 = false)

/-- The method `Webserver::registerResource` (lines 304-307). -/
def Webserver.registerResource (env : Env) (dws : Webserver) (resource : String)
    (http_resource : HttpResource) (family : Bool) : Except ConfigurationError Webserver :=
  match HttpEndpoint.ofTemplate resource family with
  | .error err => .error err
  | .ok key =>
    .ok { dws with
      registeredResources :=
        ResourceMap.insert env.endpoint_less dws.registeredResources key http_resource }

/-! ## The request callback -/

/-- The function `internal_unescaper` (lines 386-398), returning the decoded string. -/
def internal_unescaper (env : Env) (dws : Webserver) (s : String) : String :=
  match dws.unescaper with
  | some unescape => unescape s
  | none => env.http_unescape s

/-- The test `0 == strcmp(method, POST) || 0 == strcmp(method, PUT)` (lines 470, 512,
531). -/
def isPostOrPut (method : String) : Bool :=
  method == MHD_HTTP_METHOD_POST || method == MHD_HTTP_METHOD_PUT

/-- The test of lines 502-508. -/
def isBodyless (method : String) : Bool :=
  method == MHD_HTTP_METHOD_DELETE || method == MHD_HTTP_METHOD_GET
    || method == MHD_HTTP_METHOD_HEAD || method == MHD_HTTP_METHOD_CONNECT
    || method == MHD_HTTP_METHOD_HEAD || method == MHD_HTTP_METHOD_TRACE

/-- The test `0 == strncasecmp(MHD_HTTP_POST_ENCODING_FORM_URLENCODED, encoding,
strlen(MHD_HTTP_POST_ENCODING_FORM_URLENCODED))` (lines 478, 515). -/
def isFormUrlencoded (encoding : String) : Bool :=
  (encoding.data.take MHD_HTTP_POST_ENCODING_FORM_URLENCODED.length).map Char.toLower
    == MHD_HTTP_POST_ENCODING_FORM_URLENCODED.data

/-- The first `size` bytes of `upload_data`. -/
def uploaded (upload_data : String) (size : Nat) : String :=
  String.mk (upload_data.data.take size)

/-- What one invocation of the callback did and left behind. -/
structure Outcome where
  /-- The value returned to libmicrohttpd. -/
  ret : Nat
  /-- The context `*con_cls` after the call. -/
  con_cls : ModdedRequest
  /-- The counter `*upload_data_size` after the call. -/
  upload_data_size : Nat
  /-- The lines handed to `access_log`. -/
  log : List String := []
  /-- The calls of `routeRequest`, in order: the handler and the request it got. -/
  routed : List (HttpResource × HttpRequest) := []
  /-- The calls of `MHD_queue_response`, in order: status code and response. -/
  queued : List (Nat × MHD_Response) := []
  deriving DecidableEq, Repr

/-- The response `not_found_page` queues (lines 413-431); the header is added to the
response object after it is queued and before it is released. -/
def not_found_page (env : Env) : Nat × MHD_Response :=
  (MHD_HTTP_NOT_FOUND,
    { body := ResponseBody.buffer env.NOT_FOUND_ERROR,
      headers := [(MHD_HTTP_HEADER_CONTENT_ENCODING, "application/json")] })

/-- The response `method_not_acceptable_page` queues (lines 433-451). -/
def method_not_acceptable_page (env : Env) : Nat × MHD_Response :=
  (MHD_HTTP_METHOD_NOT_ACCEPTABLE,
    { body := ResponseBody.buffer env.NOT_METHOD_ERROR,
      headers := [(MHD_HTTP_HEADER_CONTENT_ENCODING, "application/json")] })

/-- The locals `len`, `found` and `matchingEndpoint` of the scan (lines 585-587). -/
structure ScanState where
  len : Int := -1
  found : Bool := false
  matchingEndpoint : HttpEndpoint := default
  deriving DecidableEq, Repr

/-- The body of the scan loop (lines 590-598) for the entry `it`. -/
def scanStep (endpoint : HttpEndpoint) (s : ScanState) (it : HttpEndpoint × HttpResource) :
    ScanState :=
  if s.len = -1 ∨ (it.1.get_url_pieces.length : Int) > s.len then
    if it.1.match_url endpoint then
      { len := it.1.get_url_pieces.length, found := true, matchingEndpoint := it.1 }
    else s
  else s

/-- The scan loop over `registeredResources` (lines 584-599). -/
def scanResources (t : List (HttpEndpoint × HttpResource)) (endpoint : HttpEndpoint) :
    ScanState :=
  t.foldl (scanStep endpoint) {}

/-- The loop of lines 614-617: `setArg(url_pars[i], url_pieces[chunkes[i]])` for every
index `i` of `url_pars`, in increasing order. -/
def bindUrlPars (url_pieces : List String) :
    HttpRequest → List String → List Nat → HttpRequest
  | supportReq, par :: url_pars, pos :: chunkes =>
    bindUrlPars url_pieces (supportReq.setArg par (url_pieces.getD pos "")) url_pars chunkes
  | supportReq, _, _ => supportReq

/-- The materialisation of lines 646-662: status code and transport response. -/
def materialize (env : Env) (dhrs : HttpResponse) : Nat × MHD_Response :=
  (dhrs.responseCode,
    { body :=
        if dhrs.responseType = ResponseType.FILE_CONTENT then
          ResponseBody.fd (env.fstat_size dhrs.fp) dhrs.fp
        else ResponseBody.buffer dhrs.content,
      headers := dhrs.headers,
      footers := dhrs.footers })

/-- Lines 536-546: version, peer and credentials are written into `supportReq`. -/
def bindPeer (connection : MHD_Connection) (version : String) (supportReq : HttpRequest) :
    HttpRequest :=
  let r := ((supportReq.setVersion version).setRequestor connection.client_ip).setRequestorPort
    connection.client_port
  match connection.basic_auth with
  | some (user, pass) => (r.setPass pass).setUser user
  | none => r

/-- Lines 547-673: resolution of `st_url`, handler call and response, for the
assembled request `supportReq`; `mr` is the context to leave behind and `log` the
access log so far.  Both reads of `registeredResources[...]` are made at a key that
is present (`dispatch_routes`); at an absent key the source would call through a null
pointer, which is the `none` case here. -/
def dispatch (env : Env) (dws : Webserver) (st_url : String) (supportReq : HttpRequest)
    (mr : ModdedRequest) (upload_data_size : Nat) (log : List String) : Outcome :=
  let endpoint := HttpEndpoint.ofUrl st_url
  if ResourceMap.count dws.registeredResources endpoint > 0 then
    match ResourceMap.at dws.registeredResources endpoint with
    | some resource =>
      { ret := MHD_YES, con_cls := mr, upload_data_size := upload_data_size, log := log,
        routed := [(resource, supportReq)],
        queued := [materialize env (env.routeRequest resource supportReq)] }
    | none => { ret := MHD_NO, con_cls := mr, upload_data_size := upload_data_size, log := log }
  else
    let s := scanResources dws.registeredResources endpoint
    if !s.found then
      { ret := MHD_YES, con_cls := mr, upload_data_size := upload_data_size, log := log,
        queued := [not_found_page env] }
    else
      let req := bindUrlPars endpoint.get_url_pieces supportReq
        s.matchingEndpoint.get_url_pars s.matchingEndpoint.get_chunk_positions
      match ResourceMap.at dws.registeredResources s.matchingEndpoint with
      | some resource =>
        { ret := MHD_YES, con_cls := mr, upload_data_size := upload_data_size, log := log,
          routed := [(resource, req)],
          queued := [materialize env (env.routeRequest resource req)] }
      | none =>
        { ret := MHD_NO, con_cls := mr, upload_data_size := upload_data_size, log := log }

/-- Lines 495-500: path, method, headers, footers and cookies are written into the
request under assembly. -/
def bindHeaders (connection : MHD_Connection) (st_url method : String) (dhr : HttpRequest) :
    HttpRequest :=
  let r := (dhr.setPath st_url).setMethod method
  let r := connection.headers.foldl (fun r kv => r.setHeader kv.1 kv.2) r
  let r := connection.footers.foldl (fun r kv => r.setFooter kv.1 kv.2) r
  connection.cookies.foldl (fun r kv => r.setCookie kv.1 kv.2) r

/-- The callback `buildRequestArgs` (lines 330-336) over all query arguments
(line 510): each value is decoded, then written with `setArg`. -/
def buildRequestArgs (env : Env) (dws : Webserver) (connection : MHD_Connection)
    (dhr : HttpRequest) : HttpRequest :=
  connection.get_arguments.foldl
    (fun r kv => r.setArg kv.1 (internal_unescaper env dws kv.2)) dhr

/-- The call `MHD_post_process(mr->pp, upload_data, size)` of line 517 with
`post_iterator` (lines 400-411) as its sink; nothing happens on a NULL processor. -/
def post_process (env : Env) (pp : Option MHD_PostProcessor) (data : String)
    (dhr : HttpRequest) : Option MHD_PostProcessor × HttpRequest :=
  match pp with
  | some p =>
    let step := env.post_process p data
    (some step.1, step.2.foldl (fun r kv => r.setArg kv.1 kv.2) dhr)
  | none => (none, dhr)

/-- Lines 514-518: the body bytes of this call go through the post processor when
the method is POST and the request's content type is form-urlencoded. -/
def feedPostProcessor (env : Env) (method : String) (pp : Option MHD_PostProcessor)
    (data : String) (dhr : HttpRequest) : Option MHD_PostProcessor × HttpRequest :=
  let encoding := dhr.getHeader http_header_content_type
  if method == MHD_HTTP_METHOD_POST && isFormUrlencoded encoding then
    post_process env pp data dhr
  else (pp, dhr)

/-- The callback `Webserver::answerToConnection` (lines 453-673).  For a method
other than POST and PUT the request is the local `supportReq` (`mr->dhr` points to it
only during the call), so the context keeps its `dhr`. -/
def answerToConnection (env : Env) (dws : Webserver) (connection : MHD_Connection)
    (url method version upload_data : String) (upload_data_size : Nat)
    (con_cls : ModdedRequest) : Outcome :=
  let st_url := env.standardizeUrl (internal_unescaper env dws url)
  let log := [con_cls.completeUri ++ " METHOD: " ++ method]
  if isPostOrPut method && !con_cls.second then
    let encoding := connection.headers.lookup http_header_content_type
    let pp :=
      match encoding with
      | some enc =>
        if method == MHD_HTTP_METHOD_POST && isFormUrlencoded enc then
          env.create_post_processor connection
        else none
      | none => none
    { ret := MHD_YES,
      con_cls := { con_cls with second := true, dhr := some {}, pp := pp },
      upload_data_size := upload_data_size, log := log }
  else
    let dhr : HttpRequest := if isPostOrPut method then con_cls.dhr.getD {} else {}
    let dhr := bindHeaders connection st_url method dhr
    if isBodyless method then
      let dhr := buildRequestArgs env dws connection dhr
      dispatch env dws st_url (bindPeer connection version dhr) con_cls upload_data_size log
    else if isPostOrPut method then
      let fed := feedPostProcessor env method con_cls.pp
        (uploaded upload_data upload_data_size) dhr
      if upload_data_size ≠ 0 then
        { ret := MHD_YES,
          con_cls := { con_cls with
            pp := fed.1,
            dhr := some (fed.2.growContent (uploaded upload_data upload_data_size)) },
          upload_data_size := 0, log := log }
      else
        dispatch env dws st_url (bindPeer connection version fed.2)
          { con_cls with pp := fed.1, dhr := some fed.2 } upload_data_size log
    else
      { ret := connection.queue_result, con_cls := con_cls,
        upload_data_size := upload_data_size, log := log,
        queued := [method_not_acceptable_page env] }

/-- Modelled from the spec: the number of fixed (non-placeholder) literal segments of
an endpoint, the measure spec §4.2 step 4 names. -/
def HttpEndpoint.literalCount (e : HttpEndpoint) : Nat :=
  (e.template.filter (fun seg => (Segment.key seg).isSome)).length

/-- What the scan loop maintains about its locals while it walks entries of `t`:
`len` is -1 until something is found, and once found, `matchingEndpoint` is a key of
`t` that matches the request and `len` is its number of url pieces. -/
def ScanState.Sound (t : List (HttpEndpoint × HttpResource)) (endpoint : HttpEndpoint)
    (s : ScanState) : Prop :=
  (s.found = false → s.len = -1) ∧
  (s.found = true →
    s.len = (s.matchingEndpoint.get_url_pieces.length : Int) ∧
    s.matchingEndpoint.match_url endpoint = true ∧
    ∃ resource, (s.matchingEndpoint, resource) ∈ t)

instance (t : List (HttpEndpoint × HttpResource)) : Decidable (ResourceMap.Valid t) := by
  unfold ResourceMap.Valid
  infer_instance

/-- A concrete environment for evaluating the callback on examples: both decoders
and `standardizeUrl` leave their input as it is, no post processor is available,
and the handler at address `h` answers with an empty 200 response. -/
def sampleEnv : Env :=
  { NOT_FOUND_ERROR := "Not Found",
    NOT_METHOD_ERROR := "Method not Acceptable",
    http_unescape := fun s => s,
    standardizeUrl := fun s => s,
    create_post_processor := fun _ => none,
    post_process := fun p _ => (p, []),
    fstat_size := fun _ => 0,
    routeRequest := fun _ _ => {},
    endpoint_less := fun _ _ => false }

/-- The endpoint registered as `/{y}/{z}`. -/
def endpoint_y_z : HttpEndpoint := ⟨[Segment.placeholder "y", Segment.placeholder "z"], false⟩

/-- The endpoint registered as `/a/{x}`. -/
def endpoint_a_x : HttpEndpoint := ⟨[Segment.literal "a", Segment.placeholder "x"], false⟩

/-- The endpoint registered as `/a/b`. -/
def endpoint_a_b : HttpEndpoint := ⟨[Segment.literal "a", Segment.literal "b"], false⟩

/-- The endpoint registered as `/a` with the family flag set. -/
def family_a : HttpEndpoint := ⟨[Segment.literal "a"], true⟩

/-- The endpoint registered as `/users/{id}`. -/
def endpoint_users_id : HttpEndpoint :=
  ⟨[Segment.literal "users", Segment.placeholder "id"], false⟩

/-- The url buffer after `n` callbacks: line 464 decodes the buffer the transport
passes, in place, on every callback, and the transport passes the same buffer to
every callback of a request. -/
def urlAfter (env : Env) (dws : Webserver) : Nat → String → String
  | 0, url => url
  | n + 1, url => urlAfter env dws n (internal_unescaper env dws url)

/-- The callbacks libmicrohttpd makes for the body of a request: one per chunk, in
arrival order, with the chunk as `upload_data` and its length as `*upload_data_size`,
each on the context and on the url buffer the previous one left (line 464 decodes the
buffer in place).  The result is the url buffer and the context after the last chunk
and the outcome of each callback. -/
def feedChunks (env : Env) (dws : Webserver) (connection : MHD_Connection)
    (method version : String) :
    String → ModdedRequest → List String → String × ModdedRequest × List Outcome
  | url, mr, [] => (url, mr, [])
  | url, mr, c :: cs =>
    let out := answerToConnection env dws connection url method version c c.length mr
    let rest := feedChunks env dws connection method version
      (internal_unescaper env dws url) out.con_cls cs
    (rest.1, rest.2.1, out :: rest.2.2)

/-- The outcomes of the callbacks of one request with a body: the first callback, the
chunk callbacks, and the callback that reports zero remaining bytes. -/
structure Delivery where
  first : Outcome
  chunks : List Outcome
  final : Outcome
  deriving DecidableEq, Repr

/-- Delivery of a request whose body arrives as `chunks`, starting on the context
`con_cls` with `url` in the url buffer: a first callback, one callback per chunk, and
one callback reporting zero remaining bytes (the first and the last carry no body
bytes).  Every callback gets the url buffer as the previous callback left it. -/
def deliver (env : Env) (dws : Webserver) (connection : MHD_Connection)
    (url method version : String) (con_cls : ModdedRequest) (chunks : List String) : Delivery :=
  let first := answerToConnection env dws connection url method version "" 0 con_cls
  let body := feedChunks env dws connection method version
    (internal_unescaper env dws url) first.con_cls chunks
  { first := first,
    chunks := body.2.2,
    final := answerToConnection env dws connection body.1 method version "" 0 body.2.1 }

/-- The callbacks libmicrohttpd makes on one context, each with its own `upload_data`
and `*upload_data_size`, on the context and the url buffer the previous call left.
No callback follows one that returned `MHD_NO` (the connection is closed), and none
follows one whose response was accepted, that is one that called `MHD_queue_response`
on a connection where that call returns `MHD_YES`.  A callback that returned `MHD_YES`
and left no response, because it queued none or because the queue was refused, is
followed by the next one. -/
def transportCallbacks (env : Env) (dws : Webserver) (connection : MHD_Connection)
    (method version : String) : String → ModdedRequest → List (String × Nat) → List Outcome
  | _, _, [] => []
  | url, mr, call :: rest =>
    let out := answerToConnection env dws connection url method version call.1 call.2 mr
    if out.ret = MHD_NO then [out]
    else if !out.queued.isEmpty && connection.queue_result == MHD_YES then [out]
    else
      out :: transportCallbacks env dws connection method version
        (internal_unescaper env dws url) out.con_cls rest

/-- The value of a hexadecimal digit. -/
def hexValue (c : Char) : Option Nat :=
  if '0' ≤ c ∧ c ≤ '9' then some (c.toNat - '0'.toNat)
  else if 'a' ≤ c ∧ c ≤ 'f' then some (c.toNat - 'a'.toNat + 10)
  else if 'A' ≤ c ∧ c ≤ 'F' then some (c.toNat - 'A'.toNat + 10)
  else none

/-- A percent decoder for evaluating examples, decoding the way the default decoder
`http_unescape` of libmicrohttpd does: `%` followed by two hexadecimal digits becomes
the character with that code, `+` becomes a space, any other character stays. -/
def percentDecode : List Char → List Char
  | [] => []
  | '%' :: h :: l :: rest =>
    match hexValue h, hexValue l with
    | some a, some b => Char.ofNat (16 * a + b) :: percentDecode rest
    | _, _ => '%' :: percentDecode (h :: l :: rest)
  | '+' :: rest => ' ' :: percentDecode rest
  | c :: rest => c :: percentDecode rest

/-- The environment `sampleEnv` with `percentDecode` as the default decoder. -/
def decodingEnv : Env :=
  { sampleEnv with http_unescape := fun s => String.mk (percentDecode s.data) }

/-- The endpoint registered as `/a+b`. -/
def endpoint_a_plus_b : HttpEndpoint := ⟨[Segment.literal "a+b"], false⟩

/-- The endpoint registered as `/a%41`. -/
def endpoint_a_percent_41 : HttpEndpoint := ⟨[Segment.literal "a%41"], false⟩

/-- The number of handler invocations over a run of callbacks. -/
def invocations (outs : List Outcome) : Nat :=
  (outs.map (fun out => out.routed.length)).sum

/-- Every key of the table was compiled from a template by the registration-time
constructor, which is how `registerResource` makes keys. -/
def ResourceMap.Registered (t : List (HttpEndpoint × HttpResource)) : Prop :=
  ∀ it ∈ t, ∃ resource family, HttpEndpoint.ofTemplate resource family = Except.ok it.1

/-- The entry `(e, h)` at the end of `pre` is the first of the entries of `t`, in
iteration order, among those that match `endpoint` and have the greatest number of
url pieces of all matching entries: `e` matches, no matching entry of `t` has more
pieces, and every matching entry before it has strictly fewer. -/
def FirstLongestMatch (t : List (HttpEndpoint × HttpResource)) (endpoint : HttpEndpoint)
    (pre : List (HttpEndpoint × HttpResource)) (e : HttpEndpoint) (h : HttpResource)
    (post : List (HttpEndpoint × HttpResource)) : Prop :=
  t = pre ++ (e, h) :: post ∧
  e.match_url endpoint = true ∧
  (∀ it ∈ t, it.1.match_url endpoint = true →
    it.1.get_url_pieces.length ≤ e.get_url_pieces.length) ∧
  (∀ it ∈ pre, it.1.match_url endpoint = true →
    it.1.get_url_pieces.length < e.get_url_pieces.length)

/-- What the scan loop has established about its locals after walking the entries
`seen`: nothing found means no entry seen matches and `len` is still -1; found means
`matchingEndpoint` is the first longest match among the entries seen and `len` is its
number of url pieces. -/
def ScanState.Exact (seen : List (HttpEndpoint × HttpResource)) (endpoint : HttpEndpoint)
    (s : ScanState) : Prop :=
  (s.found = false →
    s.len = -1 ∧ ∀ it ∈ seen, it.1.match_url endpoint = false) ∧
  (s.found = true →
    s.len = (s.matchingEndpoint.get_url_pieces.length : Int) ∧
    ∃ pre h post, FirstLongestMatch seen endpoint pre s.matchingEndpoint h post)

/-! ## Theorems -/

theorem HttpEndpoint.sameKey_self (e : HttpEndpoint) : e.sameKey e = true := by
  simp [HttpEndpoint.sameKey]

theorem HttpEndpoint.sameKey_comm (a b : HttpEndpoint) : a.sameKey b = b.sameKey a := by
  simp [HttpEndpoint.sameKey, eq_comm]

/-- In a table with unique keys, reading the table at one of its keys gives the
handler stored with that key. -/
theorem ResourceMap.at_of_mem {t : List (HttpEndpoint × HttpResource)}
    (hv : ResourceMap.Valid t) {e : HttpEndpoint} {h : HttpResource} (he : (e, h) ∈ t) :
    ResourceMap.at t e = some h := by
  induction t with
  | nil => cases he
  | cons hd rest ih =>
    obtain ⟨k, v⟩ := hd
    have hv2 := List.pairwise_cons.mp hv
    rcases List.mem_cons.mp he with heq | hin
    · cases heq
      simp [ResourceMap.at, List.find?, HttpEndpoint.sameKey_self]
    · have hne : k.sameKey e = false := hv2.1 (e, h) hin
      have := ih hv2.2 hin
      simpa [ResourceMap.at, List.find?, hne] using this

theorem ResourceMap.count_eq_zero_iff (t : List (HttpEndpoint × HttpResource))
    (endpoint : HttpEndpoint) :
    ResourceMap.count t endpoint = 0 ↔ ∀ it ∈ t, it.1.sameKey endpoint = false := by
  unfold ResourceMap.count
  by_cases h : t.any (fun it => it.1.sameKey endpoint) = true
  · simp only [h, if_true]
    constructor
    · intro h1; cases h1
    · intro h2
      obtain ⟨it, hit, hk⟩ := List.any_eq_true.mp h
      rw [h2 it hit] at hk; cases hk
  · simp only [h, if_false]
    constructor
    · intro _ it hit
      by_contra hc
      exact h (List.any_eq_true.mpr ⟨it, hit, by simpa using hc⟩)
    · intro _; trivial

/-- One step of the scan keeps the locals sound, never lowers `len`, and leaves
`len` at least the piece count of the entry it looked at when that entry matches. -/
theorem scanStep_spec (t : List (HttpEndpoint × HttpResource)) (endpoint : HttpEndpoint)
    (s : ScanState) (it : HttpEndpoint × HttpResource) (hit : it ∈ t)
    (hs : ScanState.Sound t endpoint s) :
    ScanState.Sound t endpoint (scanStep endpoint s it) ∧
    s.len ≤ (scanStep endpoint s it).len ∧
    (s.found = true → (scanStep endpoint s it).found = true) ∧
    (it.1.match_url endpoint = true →
      (scanStep endpoint s it).found = true ∧
      (it.1.get_url_pieces.length : Int) ≤ (scanStep endpoint s it).len) := by
  obtain ⟨hs1, hs2⟩ := hs
  unfold scanStep
  by_cases hc : s.len = -1 ∨ (it.1.get_url_pieces.length : Int) > s.len
  · by_cases hm : it.1.match_url endpoint = true
    · rw [if_pos hc, if_pos hm]
      refine ⟨⟨by simp, fun _ => ⟨rfl, hm, it.2, hit⟩⟩, ?_, fun _ => rfl, fun _ => ⟨rfl, le_refl _⟩⟩
      rcases hc with h1 | h2
      · rw [h1]
        have : (0 : Int) ≤ (it.1.get_url_pieces.length : Int) := Int.natCast_nonneg _
        show (-1 : Int) ≤ (it.1.get_url_pieces.length : Int)
        omega
      · exact le_of_lt h2
    · rw [if_pos hc, if_neg hm]
      exact ⟨⟨hs1, hs2⟩, le_refl _, id, fun h => absurd h hm⟩
  · rw [if_neg hc]
    refine ⟨⟨hs1, hs2⟩, le_refl _, id, fun _ => ?_⟩
    have hc1 : ¬ s.len = -1 := fun h => hc (Or.inl h)
    have hc2 : ¬ (it.1.get_url_pieces.length : Int) > s.len := fun h => hc (Or.inr h)
    refine ⟨?_, not_lt.mp hc2⟩
    cases hf : s.found with
    | true => rfl
    | false => exact absurd (hs1 hf) hc1

/-- The scan from sound locals over entries of `t` ends with sound locals whose
`len` dominates the piece count of every matching entry it walked over. -/
theorem scan_foldl_spec (t : List (HttpEndpoint × HttpResource)) (endpoint : HttpEndpoint) :
    ∀ (l : List (HttpEndpoint × HttpResource)) (s : ScanState),
      (∀ it ∈ l, it ∈ t) → ScanState.Sound t endpoint s →
      ScanState.Sound t endpoint (l.foldl (scanStep endpoint) s) ∧
      s.len ≤ (l.foldl (scanStep endpoint) s).len ∧
      (s.found = true → (l.foldl (scanStep endpoint) s).found = true) ∧
      ∀ it ∈ l, it.1.match_url endpoint = true →
        (l.foldl (scanStep endpoint) s).found = true ∧
        (it.1.get_url_pieces.length : Int) ≤ (l.foldl (scanStep endpoint) s).len := by
  intro l
  induction l with
  | nil =>
    intro s _ hs
    exact ⟨hs, le_refl _, id, fun it hit => by cases hit⟩
  | cons hd rest ih =>
    intro s hsub hs
    have hstep := scanStep_spec t endpoint s hd (hsub hd (List.mem_cons_self _ _)) hs
    have hrest := ih (scanStep endpoint s hd)
      (fun it hit => hsub it (List.mem_cons_of_mem _ hit)) hstep.1
    simp only [List.foldl_cons]
    refine ⟨hrest.1, le_trans hstep.2.1 hrest.2.1, fun hf => hrest.2.2.1 (hstep.2.2.1 hf), ?_⟩
    intro it hit hm
    rcases List.mem_cons.mp hit with heq | hin
    · subst heq
      have h1 := hstep.2.2.2 hm
      exact ⟨hrest.2.2.1 h1.1, le_trans h1.2 hrest.2.1⟩
    · exact hrest.2.2.2 it hin hm

/-- The locals a scan starts from are sound. -/
theorem scan_start_sound (t : List (HttpEndpoint × HttpResource)) (endpoint : HttpEndpoint) :
    ScanState.Sound t endpoint {} :=
  ⟨fun _ => rfl, fun h => by cases h⟩

/-- Reading the table at an endpoint that is the same key as one of its keys gives
some handler. -/
theorem ResourceMap.at_isSome {t : List (HttpEndpoint × HttpResource)} {e : HttpEndpoint}
    (h : ∃ it ∈ t, it.1.sameKey e = true) : ∃ resource, ResourceMap.at t e = some resource := by
  obtain ⟨it, hit, hk⟩ := h
  have hs : (t.find? (fun it => it.1.sameKey e)).isSome = true :=
    List.find?_isSome.mpr ⟨it, hit, hk⟩
  obtain ⟨x, hx⟩ := Option.isSome_iff_exists.mp hs
  exact ⟨x.2, by simp [ResourceMap.at, hx]⟩

/-- The exact-key branch of the resolution (lines 553-581). -/
theorem dispatch_exact (env : Env) (dws : Webserver) (st_url : String)
    (supportReq : HttpRequest) (mr : ModdedRequest) (size : Nat) (log : List String)
    (resource : HttpResource)
    (hk : ResourceMap.count dws.registeredResources (HttpEndpoint.ofUrl st_url) > 0)
    (hat : ResourceMap.at dws.registeredResources (HttpEndpoint.ofUrl st_url) = some resource) :
    dispatch env dws st_url supportReq mr size log =
      { ret := MHD_YES, con_cls := mr, upload_data_size := size, log := log,
        routed := [(resource, supportReq)],
        queued := [materialize env (env.routeRequest resource supportReq)] } := by
  unfold dispatch
  simp only [hk, if_true, hat]

/-- The pattern branch of the resolution when the scan finds an endpoint
(lines 609-644). -/
theorem dispatch_pattern (env : Env) (dws : Webserver) (st_url : String)
    (supportReq : HttpRequest) (mr : ModdedRequest) (size : Nat) (log : List String)
    (resource : HttpResource)
    (hk : ResourceMap.count dws.registeredResources (HttpEndpoint.ofUrl st_url) = 0)
    (hfound : (scanResources dws.registeredResources (HttpEndpoint.ofUrl st_url)).found = true)
    (hat : ResourceMap.at dws.registeredResources
      (scanResources dws.registeredResources (HttpEndpoint.ofUrl st_url)).matchingEndpoint
        = some resource) :
    dispatch env dws st_url supportReq mr size log =
      { ret := MHD_YES, con_cls := mr, upload_data_size := size, log := log,
        routed := [(resource, bindUrlPars (HttpEndpoint.ofUrl st_url).get_url_pieces supportReq
          (scanResources dws.registeredResources
            (HttpEndpoint.ofUrl st_url)).matchingEndpoint.get_url_pars
          (scanResources dws.registeredResources
            (HttpEndpoint.ofUrl st_url)).matchingEndpoint.get_chunk_positions)],
        queued := [materialize env (env.routeRequest resource
          (bindUrlPars (HttpEndpoint.ofUrl st_url).get_url_pieces supportReq
            (scanResources dws.registeredResources
              (HttpEndpoint.ofUrl st_url)).matchingEndpoint.get_url_pars
            (scanResources dws.registeredResources
              (HttpEndpoint.ofUrl st_url)).matchingEndpoint.get_chunk_positions))] } := by
  unfold dispatch
  simp only [hk, gt_iff_lt, lt_self_iff_false, if_false, hfound, Bool.not_true,
    Bool.false_eq_true, hat]

/-- What the scan ends with, for the whole table. -/
theorem scanResources_spec (t : List (HttpEndpoint × HttpResource)) (endpoint : HttpEndpoint) :
    ScanState.Sound t endpoint (scanResources t endpoint) ∧
    ∀ it ∈ t, it.1.match_url endpoint = true →
      (scanResources t endpoint).found = true ∧
      (it.1.get_url_pieces.length : Int) ≤ (scanResources t endpoint).len := by
  have h := scan_foldl_spec t endpoint t {} (fun _ hit => hit) (scan_start_sound _ _)
  exact ⟨h.1, h.2.2.2⟩

/-- C1 (as amended): in the resolution of `answerToConnection` (lines 547-645), for
every request path that is not an exact key of the table and every registered endpoint
`e` that matches it, the handler invoked is the one registered for an endpoint `sel`
of the table that matches the path and has at least as many url pieces (literal and
placeholder alike) as `e`.  So of two matching endpoints that differ in their total
number of url pieces the one with fewer pieces is never selected, whatever the
iteration order. -/
theorem resolution_prefers_more_url_pieces (env : Env) (dws : Webserver) (st_url : String)
    (supportReq : HttpRequest) (mr : ModdedRequest) (size : Nat) (log : List String)
    (hv : ResourceMap.Valid dws.registeredResources)
    (hk : ResourceMap.count dws.registeredResources (HttpEndpoint.ofUrl st_url) = 0)
    (e : HttpEndpoint) (h : HttpResource) (he : (e, h) ∈ dws.registeredResources)
    (hm : e.match_url (HttpEndpoint.ofUrl st_url) = true) :
    ∃ sel hsel req, (sel, hsel) ∈ dws.registeredResources ∧
      sel.match_url (HttpEndpoint.ofUrl st_url) = true ∧
      e.get_url_pieces.length ≤ sel.get_url_pieces.length ∧
      (dispatch env dws st_url supportReq mr size log).routed = [(hsel, req)] := by
  obtain ⟨hsound, hall⟩ := scanResources_spec dws.registeredResources (HttpEndpoint.ofUrl st_url)
  obtain ⟨hfound, hlen⟩ := hall (e, h) he hm
  obtain ⟨hl, hmatch, hsel, hmem⟩ := hsound.2 hfound
  have hat := ResourceMap.at_of_mem hv hmem
  rw [hl] at hlen
  rw [dispatch_pattern env dws st_url supportReq mr size log hsel hk hfound hat]
  exact ⟨_, hsel, _, hmem, hmatch, Int.ofNat_le.mp hlen, rfl⟩

theorem resolution_prefers_more_url_pieces_witness :
    ∃ sel hsel req, (sel, hsel) ∈ [(family_a, 1), (endpoint_y_z, 2)] ∧
      sel.match_url (HttpEndpoint.ofUrl "/a/b") = true ∧
      family_a.get_url_pieces.length ≤ sel.get_url_pieces.length ∧
      (dispatch sampleEnv { registeredResources := [(family_a, 1), (endpoint_y_z, 2)] } "/a/b"
        {} {} 0 []).routed = [(hsel, req)] :=
  resolution_prefers_more_url_pieces sampleEnv
    { registeredResources := [(family_a, 1), (endpoint_y_z, 2)] } "/a/b" {} {} 0 []
    (by decide) (by decide) family_a 1 (by decide) (by decide)

/-- C1 (counterexample): with `/{y}/{z}` and `/a/{x}` registered and iterated in
this order, both match `/a/b` and `/a/{x}` has strictly more literal segments, yet
`GET /a/b` is handled by the handler of `/{y}/{z}`.  With the family `/a` and
`/{y}/{z}` registered, the family has strictly more literal segments, yet the
handler of `/{y}/{z}` is invoked in either iteration order. -/
theorem literal_count_does_not_decide :
    endpoint_y_z.match_url (HttpEndpoint.ofUrl "/a/b") = true ∧
    endpoint_a_x.match_url (HttpEndpoint.ofUrl "/a/b") = true ∧
    endpoint_y_z.literalCount < endpoint_a_x.literalCount ∧
    ResourceMap.Valid [(endpoint_y_z, 1), (endpoint_a_x, 2)] ∧
    (answerToConnection sampleEnv { registeredResources := [(endpoint_y_z, 1), (endpoint_a_x, 2)] }
      {} "/a/b" "GET" "HTTP/1.1" "" 0 (uri_log "/a/b")).routed.map Prod.fst = [1] ∧
    family_a.match_url (HttpEndpoint.ofUrl "/a/b") = true ∧
    endpoint_y_z.literalCount < family_a.literalCount ∧
    (answerToConnection sampleEnv { registeredResources := [(family_a, 1), (endpoint_y_z, 2)] }
      {} "/a/b" "GET" "HTTP/1.1" "" 0 (uri_log "/a/b")).routed.map Prod.fst = [2] ∧
    (answerToConnection sampleEnv { registeredResources := [(endpoint_y_z, 2), (family_a, 1)] }
      {} "/a/b" "GET" "HTTP/1.1" "" 0 (uri_log "/a/b")).routed.map Prod.fst = [2] := by
  decide

/-- A classified template piece is a placeholder or the literal of the piece itself. -/
theorem Segment.ofPiece_cases (p : String) :
    (∃ name, Segment.ofPiece p = Segment.placeholder name) ∨
      Segment.ofPiece p = Segment.literal p := by
  unfold Segment.ofPiece
  split
  · split
    · exact Or.inl ⟨_, rfl⟩
    · exact Or.inr rfl
  · exact Or.inr rfl

/-- A template without parameters consists of the literals of its pieces. -/
theorem map_ofPiece_of_no_params (pieces : List String) :
    ∀ i, paramPositionsFrom i (pieces.map Segment.ofPiece) = [] →
      pieces.map Segment.ofPiece = pieces.map Segment.literal := by
  induction pieces with
  | nil => intro _ _; rfl
  | cons p rest ih =>
    intro i hp
    rcases Segment.ofPiece_cases p with ⟨name, hn⟩ | hl
    · simp [List.map_cons, hn, paramPositionsFrom] at hp
    · simp only [List.map_cons, hl, paramPositionsFrom] at hp
      simp only [List.map_cons, hl, ih (i + 1) hp]

/-- A static template compiles to the endpoint of the request path of the same text,
up to the family flag. -/
theorem ofTemplate_static (resource : String) (family : Bool) (e : HttpEndpoint)
    (hreg : HttpEndpoint.ofTemplate resource family = Except.ok e)
    (hstatic : e.get_url_pars = []) :
    e.template = (HttpEndpoint.ofUrl resource).template := by
  unfold HttpEndpoint.ofTemplate at hreg
  simp only at hreg
  split at hreg
  · cases hreg
  · split at hreg
    · cases hreg
      simp only [HttpEndpoint.get_url_pars, HttpEndpoint.paramPositions,
        List.map_eq_nil_iff] at hstatic
      exact map_ofPiece_of_no_params _ 0 hstatic
    · cases hreg

/-- Reading and counting depend on the segment sequence of the endpoint only. -/
theorem ResourceMap.at_congr (t : List (HttpEndpoint × HttpResource)) (a b : HttpEndpoint)
    (h : a.template = b.template) :
    ResourceMap.at t a = ResourceMap.at t b ∧ ResourceMap.count t a = ResourceMap.count t b := by
  have hk : ∀ it : HttpEndpoint × HttpResource, it.1.sameKey a = it.1.sameKey b := by
    intro it; simp only [HttpEndpoint.sameKey, h]
  simp only [ResourceMap.at, ResourceMap.count, hk, and_self]

/-- C2: for every endpoint table (a map with unique keys) and every static template
`resource` registered in it with handler `h`, resolving a request whose path is
exactly `resource` finds it as an exact key, before any scan, and invokes `h` once
with the request as it was assembled before resolution: no path-extracted parameter
is added. -/
theorem static_path_routes_to_its_handler (env : Env) (dws : Webserver) (resource : String)
    (family : Bool) (e : HttpEndpoint) (h : HttpResource) (supportReq : HttpRequest)
    (mr : ModdedRequest) (size : Nat) (log : List String)
    (hv : ResourceMap.Valid dws.registeredResources)
    (hreg : HttpEndpoint.ofTemplate resource family = Except.ok e)
    (hstatic : e.get_url_pars = [])
    (he : (e, h) ∈ dws.registeredResources) :
    ResourceMap.count dws.registeredResources (HttpEndpoint.ofUrl resource) > 0 ∧
    dispatch env dws resource supportReq mr size log =
      { ret := MHD_YES, con_cls := mr, upload_data_size := size, log := log,
        routed := [(h, supportReq)],
        queued := [materialize env (env.routeRequest h supportReq)] } := by
  have ht := ofTemplate_static resource family e hreg hstatic
  have hc := ResourceMap.at_congr dws.registeredResources e (HttpEndpoint.ofUrl resource) ht
  have hat : ResourceMap.at dws.registeredResources (HttpEndpoint.ofUrl resource) = some h := by
    rw [← hc.1]; exact ResourceMap.at_of_mem hv he
  have hcount : ResourceMap.count dws.registeredResources (HttpEndpoint.ofUrl resource) > 0 := by
    rw [← hc.2]
    unfold ResourceMap.count
    rw [if_pos (List.any_eq_true.mpr ⟨(e, h), he, HttpEndpoint.sameKey_self e⟩)]
    exact Nat.one_pos
  exact ⟨hcount, dispatch_exact env dws resource supportReq mr size log h hcount hat⟩

theorem static_path_routes_to_its_handler_witness :
    ResourceMap.count [(endpoint_a_b, 1), (endpoint_a_x, 2)] (HttpEndpoint.ofUrl "/a/b") > 0 ∧
    dispatch sampleEnv { registeredResources := [(endpoint_a_b, 1), (endpoint_a_x, 2)] } "/a/b"
        {} {} 0 [] =
      { ret := MHD_YES, con_cls := {}, upload_data_size := 0, log := [],
        routed := [(1, {})],
        queued := [materialize sampleEnv (sampleEnv.routeRequest 1 {})] } :=
  static_path_routes_to_its_handler sampleEnv
    { registeredResources := [(endpoint_a_b, 1), (endpoint_a_x, 2)] } "/a/b" false endpoint_a_b 1
    {} {} 0 [] (by decide) rfl rfl (by decide)

theorem lookup_cons_ite (a b k' : String) (rest : List (String × String)) :
    List.lookup k' ((a, b) :: rest) = if k' = a then some b else List.lookup k' rest := by
  by_cases h : k' = a
  · subst h; simp [List.lookup]
  · have hb : (k' == a) = false := beq_eq_false_iff_ne.mpr h
    simp [List.lookup, hb, h]

theorem lookup_assign (m : List (String × String)) (k v k' : String) :
    (assign m k v).lookup k' = if k' = k then some v else m.lookup k' := by
  induction m with
  | nil =>
    show List.lookup k' [(k, v)] = _
    rw [lookup_cons_ite]
  | cons hd rest ih =>
    obtain ⟨a, b⟩ := hd
    by_cases ha : a = k
    · subst ha
      simp only [assign, if_true, lookup_cons_ite]
      by_cases h : k' = a <;> simp [h]
    · simp only [assign, if_neg ha, lookup_cons_ite, ih]
      by_cases h : k' = k
      · have : ¬ k' = a := fun h2 => ha (h2.symm.trans h)
        simp [h, this]
        intro h3; exact absurd h3.symm ha
      · simp [h]

theorem lookup_foldl_assign_of_not_mem (kvs : List (String × String)) :
    ∀ (m : List (String × String)) (k : String), k ∉ kvs.map Prod.fst →
      (kvs.foldl (fun m kv => assign m kv.1 kv.2) m).lookup k = m.lookup k := by
  induction kvs with
  | nil => intro m k _; rfl
  | cons kv rest ih =>
    intro m k hk
    simp only [List.map_cons, List.mem_cons, not_or] at hk
    simp only [List.foldl_cons]
    rw [ih _ k hk.2, lookup_assign, if_neg hk.1]

theorem lookup_foldl_assign_last (pre post : List (String × String)) (k v : String)
    (m : List (String × String)) (hk : k ∉ post.map Prod.fst) :
    ((pre ++ (k, v) :: post).foldl (fun m kv => assign m kv.1 kv.2) m).lookup k = some v := by
  rw [List.foldl_append, List.foldl_cons, lookup_foldl_assign_of_not_mem post _ k hk,
    lookup_assign, if_pos rfl]

theorem paramPositionsFrom_bounds (l : List Segment) :
    ∀ (i : Nat) (np : String × Nat), np ∈ paramPositionsFrom i l → i ≤ np.2 ∧ np.2 < i + l.length := by
  induction l with
  | nil => intro i np h; cases h
  | cons seg rest ih =>
    intro i np h
    cases seg with
    | literal text =>
      have := ih (i + 1) np h
      simp only [List.length_cons]
      omega
    | placeholder name =>
      simp only [paramPositionsFrom, List.mem_cons] at h
      rcases h with h | h
      · subst h
        simp only [List.length_cons]
        omega
      · have := ih (i + 1) np h
        simp only [List.length_cons]
        omega

theorem segmentsAccept_length (l : List Segment) :
    ∀ ps : List String, segmentsAccept l ps = true → l.length ≤ ps.length := by
  induction l with
  | nil => intro ps _; simp
  | cons seg rest ih =>
    intro ps h
    cases ps with
    | nil => simp [segmentsAccept] at h
    | cons p ps =>
      simp only [segmentsAccept, Bool.and_eq_true] at h
      have := ih ps h.2
      simp only [List.length_cons]
      omega

theorem match_url_length (self url : HttpEndpoint) (h : self.match_url url = true) :
    self.template.length ≤ url.get_url_pieces.length := by
  unfold HttpEndpoint.match_url at h
  split at h
  · simp only [Bool.and_eq_true] at h
    exact segmentsAccept_length _ _ h.2
  · simp only [Bool.and_eq_true] at h
    exact segmentsAccept_length _ _ h.2

theorem get_url_pieces_ofUrl (st_url : String) :
    (HttpEndpoint.ofUrl st_url).get_url_pieces = pathSegments st_url := by
  simp [HttpEndpoint.ofUrl, HttpEndpoint.get_url_pieces, Function.comp_def, Segment.piece]

theorem bindUrlPars_eq_foldl (url_pieces : List String) (pp : List (String × Nat)) :
    ∀ supportReq : HttpRequest,
      bindUrlPars url_pieces supportReq (pp.map Prod.fst) (pp.map Prod.snd) =
        pp.foldl (fun r np => r.setArg np.1 (url_pieces.getD np.2 "")) supportReq := by
  induction pp with
  | nil => intro r; rfl
  | cons np rest ih =>
    intro r
    simp only [List.map_cons, bindUrlPars, List.foldl_cons]
    exact ih _

theorem args_foldl_setArg {α : Type} (l : List α) (key value : α → String) :
    ∀ r : HttpRequest,
      (l.foldl (fun r x => r.setArg (key x) (value x)) r).args =
        l.foldl (fun m x => assign m (key x) (value x)) r.args := by
  induction l with
  | nil => intro r; rfl
  | cons x rest ih =>
    intro r
    simp only [List.foldl_cons]
    rw [ih]
    rfl

/-- From an index into a list to the split of the list around it. -/
theorem split_at_index {α : Type} (l : List α) (i : Nat) (x : α) (h : l[i]? = some x) :
    l = l.take i ++ x :: l.drop (i + 1) := by
  obtain ⟨hi, hx⟩ := List.getElem?_eq_some.mp h
  have h1 : l.drop i = l[i] :: l.drop (i + 1) := List.drop_eq_getElem_cons hi
  rw [hx] at h1
  calc l = l.take i ++ l.drop i := (List.take_append_drop i l).symm
    _ = l.take i ++ x :: l.drop (i + 1) := by rw [h1]

/-- C3: when the resolution selects the registered endpoint `sel` by pattern match
(the path is no exact key and the scan ends on `sel`), whose parameter names are
distinct as registration guarantees, the handler of `sel` is invoked with a request
whose arguments are the incoming ones with `url_pars[i] := url_pieces[chunk_positions[i]]`
written for each index `i` in template order; and for every index `i` the segment at
`chunk_positions[i]` exists in the request path and is the value of argument
`url_pars[i]`. -/
theorem placeholders_bound_in_template_order (env : Env) (dws : Webserver) (st_url : String)
    (supportReq : HttpRequest) (mr : ModdedRequest) (size : Nat) (log : List String)
    (sel : HttpEndpoint)
    (hv : ResourceMap.Valid dws.registeredResources)
    (hk : ResourceMap.count dws.registeredResources (HttpEndpoint.ofUrl st_url) = 0)
    (hfound : (scanResources dws.registeredResources (HttpEndpoint.ofUrl st_url)).found = true)
    (hsel : (scanResources dws.registeredResources (HttpEndpoint.ofUrl st_url)).matchingEndpoint
      = sel)
    (hnodup : sel.get_url_pars.Nodup) :
    ∃ h req, (sel, h) ∈ dws.registeredResources ∧
      (dispatch env dws st_url supportReq mr size log).routed = [(h, req)] ∧
      req.args = sel.paramPositions.foldl
        (fun m np => assign m np.1 ((pathSegments st_url).getD np.2 "")) supportReq.args ∧
      ∀ (i : Nat) (name : String) (pos : Nat),
        sel.get_url_pars[i]? = some name → sel.get_chunk_positions[i]? = some pos →
        ∃ v, (pathSegments st_url)[pos]? = some v ∧ req.getArg name = some v := by
  obtain ⟨hsound, _⟩ := scanResources_spec dws.registeredResources (HttpEndpoint.ofUrl st_url)
  obtain ⟨_, hmatch, h, hmem⟩ := hsound.2 hfound
  have hat := ResourceMap.at_of_mem hv hmem
  have hd := dispatch_pattern env dws st_url supportReq mr size log h hk hfound hat
  rw [hsel] at hmem hmatch hd
  have hargs : (bindUrlPars (HttpEndpoint.ofUrl st_url).get_url_pieces supportReq
      sel.get_url_pars sel.get_chunk_positions).args =
      sel.paramPositions.foldl
        (fun m np => assign m np.1 ((pathSegments st_url).getD np.2 "")) supportReq.args := by
    rw [get_url_pieces_ofUrl]
    unfold HttpEndpoint.get_url_pars HttpEndpoint.get_chunk_positions
    rw [bindUrlPars_eq_foldl]
    exact args_foldl_setArg sel.paramPositions Prod.fst
      (fun np => (pathSegments st_url).getD np.2 "") supportReq
  refine ⟨h, _, hmem, by rw [hd], hargs, ?_⟩
  intro i name pos hname hpos
  have hnp : sel.paramPositions[i]? = some (name, pos) := by
    unfold HttpEndpoint.get_url_pars at hname
    unfold HttpEndpoint.get_chunk_positions at hpos
    rw [List.getElem?_map] at hname hpos
    cases hx : sel.paramPositions[i]? with
    | none => rw [hx] at hname; cases hname
    | some np =>
      rw [hx] at hname hpos
      simp only [Option.map_some', Option.some.injEq] at hname hpos
      rw [← hname, ← hpos]
  have hsplit := split_at_index sel.paramPositions i (name, pos) hnp
  have hin : (name, pos) ∈ sel.paramPositions := by
    rw [hsplit]; simp
  have hb := paramPositionsFrom_bounds sel.template 0 (name, pos) hin
  have hlen := match_url_length sel (HttpEndpoint.ofUrl st_url) hmatch
  rw [get_url_pieces_ofUrl] at hlen
  have hpos_lt : pos < (pathSegments st_url).length := by
    have := hb.2
    simp only at this
    omega
  refine ⟨(pathSegments st_url)[pos], List.getElem?_eq_getElem hpos_lt, ?_⟩
  have hnot : name ∉ (sel.paramPositions.drop (i + 1)).map Prod.fst := by
    unfold HttpEndpoint.get_url_pars at hnodup
    rw [hsplit, List.map_append, List.map_cons] at hnodup
    have h2 := (List.nodup_append.mp hnodup).2.1
    exact (List.nodup_cons.mp h2).1
  unfold HttpRequest.getArg
  rw [hargs, hsplit]
  have hl := lookup_foldl_assign_last
    ((sel.paramPositions.take i).map (fun np => (np.1, (pathSegments st_url).getD np.2 "")))
    ((sel.paramPositions.drop (i + 1)).map (fun np => (np.1, (pathSegments st_url).getD np.2 "")))
    name ((pathSegments st_url).getD pos "") supportReq.args
    (by simpa [List.map_map, Function.comp_def] using hnot)
  have hfold : ∀ (l : List (String × Nat)) (m : List (String × String)),
      l.foldl (fun m np => assign m np.1 ((pathSegments st_url).getD np.2 "")) m =
      (l.map (fun np => (np.1, (pathSegments st_url).getD np.2 ""))).foldl
        (fun m kv => assign m kv.1 kv.2) m := by
    intro l m
    rw [List.foldl_map]
  rw [hfold, List.map_append, List.map_cons, hl]
  simp [List.getD_eq_getElem?_getD, List.getElem?_eq_getElem hpos_lt]

theorem placeholders_bound_in_template_order_witness :
    ∃ h req, (dispatch sampleEnv { registeredResources := [(endpoint_users_id, 7)] }
        "/users/42" {} {} 0 []).routed = [(h, req)] ∧ req.getArg "id" = some "42" := by
  obtain ⟨h, req, _, hr, _, hall⟩ := placeholders_bound_in_template_order sampleEnv
    { registeredResources := [(endpoint_users_id, 7)] } "/users/42" {} {} 0 []
    endpoint_users_id (by decide) (by decide) (by decide) (by decide) (by decide)
  obtain ⟨v, hv, hg⟩ := hall 0 "id" 1 rfl rfl
  have h42 : (pathSegments "/users/42")[1]? = some "42" := by decide
  rw [h42] at hv
  cases hv
  exact ⟨h, req, hr, hg⟩

theorem isPostOrPut_of_isBodyless (method : String) (h : isBodyless method = true) :
    isPostOrPut method = false := by
  unfold isBodyless at h
  unfold isPostOrPut
  simp only [Bool.or_eq_true, beq_iff_eq] at h
  rcases h with ((((h | h) | h) | h) | h) | h <;> subst h <;> decide

theorem isBodyless_of_isPostOrPut (method : String) (h : isPostOrPut method = true) :
    isBodyless method = false := by
  cases hb : isBodyless method with
  | false => rfl
  | true => rw [isPostOrPut_of_isBodyless method hb] at h; cases h

/-- The methods the callback supports are those one of its two tests accepts. -/
theorem supported_iff (method : String) :
    method ∈ [MHD_HTTP_METHOD_GET, MHD_HTTP_METHOD_HEAD, MHD_HTTP_METHOD_DELETE,
      MHD_HTTP_METHOD_CONNECT, MHD_HTTP_METHOD_TRACE, MHD_HTTP_METHOD_POST,
      MHD_HTTP_METHOD_PUT] ↔ (isBodyless method = true ∨ isPostOrPut method = true) := by
  unfold isBodyless isPostOrPut
  simp only [List.mem_cons, List.mem_singleton, Bool.or_eq_true, beq_iff_eq, List.mem_nil_iff,
    or_false]
  tauto

/-- First callback of a POST or PUT request (lines 470-487). -/
theorem answerToConnection_first (env : Env) (dws : Webserver) (connection : MHD_Connection)
    (url method version upload_data : String) (size : Nat) (con_cls : ModdedRequest)
    (hm : isPostOrPut method = true) (hs : con_cls.second = false) :
    answerToConnection env dws connection url method version upload_data size con_cls =
      { ret := MHD_YES,
        con_cls := { con_cls with
          second := true, dhr := some {},
          pp := match connection.headers.lookup http_header_content_type with
            | some enc =>
              if method == MHD_HTTP_METHOD_POST && isFormUrlencoded enc then
                env.create_post_processor connection
              else none
            | none => none },
        upload_data_size := size,
        log := [con_cls.completeUri ++ " METHOD: " ++ method] } := by
  unfold answerToConnection
  simp only [hm, hs, Bool.not_false, Bool.and_self, if_true]

/-- A later callback of a POST or PUT request that carries body bytes
(lines 512-524). -/
theorem answerToConnection_chunk (env : Env) (dws : Webserver) (connection : MHD_Connection)
    (url method version upload_data : String) (size : Nat) (con_cls : ModdedRequest)
    (hm : isPostOrPut method = true) (hs : con_cls.second = true) (hsize : size ≠ 0) :
    answerToConnection env dws connection url method version upload_data size con_cls =
      { ret := MHD_YES,
        con_cls := { con_cls with
          pp := (feedPostProcessor env method con_cls.pp (uploaded upload_data size)
            (bindHeaders connection (env.standardizeUrl (internal_unescaper env dws url)) method
              (con_cls.dhr.getD {}))).1,
          dhr := some ((feedPostProcessor env method con_cls.pp (uploaded upload_data size)
            (bindHeaders connection (env.standardizeUrl (internal_unescaper env dws url)) method
              (con_cls.dhr.getD {}))).2.growContent (uploaded upload_data size)) },
        upload_data_size := 0,
        log := [con_cls.completeUri ++ " METHOD: " ++ method] } := by
  unfold answerToConnection
  simp only [hm, hs, isBodyless_of_isPostOrPut method hm, Bool.not_true, Bool.and_false,
    Bool.false_eq_true, if_false, if_true, ne_eq, hsize, not_false_eq_true]

/-- The callback of a POST or PUT request that reports no remaining body bytes
(lines 512-534, then the resolution). -/
theorem answerToConnection_final (env : Env) (dws : Webserver) (connection : MHD_Connection)
    (url method version upload_data : String) (con_cls : ModdedRequest)
    (hm : isPostOrPut method = true) (hs : con_cls.second = true) :
    answerToConnection env dws connection url method version upload_data 0 con_cls =
      dispatch env dws (env.standardizeUrl (internal_unescaper env dws url))
        (bindPeer connection version
          (feedPostProcessor env method con_cls.pp (uploaded upload_data 0)
            (bindHeaders connection (env.standardizeUrl (internal_unescaper env dws url)) method
              (con_cls.dhr.getD {}))).2)
        { con_cls with
          pp := (feedPostProcessor env method con_cls.pp (uploaded upload_data 0)
            (bindHeaders connection (env.standardizeUrl (internal_unescaper env dws url)) method
              (con_cls.dhr.getD {}))).1,
          dhr := some (feedPostProcessor env method con_cls.pp (uploaded upload_data 0)
            (bindHeaders connection (env.standardizeUrl (internal_unescaper env dws url)) method
              (con_cls.dhr.getD {}))).2 }
        0 [con_cls.completeUri ++ " METHOD: " ++ method] := by
  unfold answerToConnection
  simp only [hm, hs, isBodyless_of_isPostOrPut method hm, Bool.not_true, Bool.and_false,
    Bool.false_eq_true, if_false, if_true, ne_eq, not_true_eq_false]

/-- The callback of a request with a bodyless method (lines 489-511, then the
resolution). -/
theorem answerToConnection_bodyless (env : Env) (dws : Webserver) (connection : MHD_Connection)
    (url method version upload_data : String) (size : Nat) (con_cls : ModdedRequest)
    (hm : isBodyless method = true) :
    answerToConnection env dws connection url method version upload_data size con_cls =
      dispatch env dws (env.standardizeUrl (internal_unescaper env dws url))
        (bindPeer connection version
          (buildRequestArgs env dws connection
            (bindHeaders connection (env.standardizeUrl (internal_unescaper env dws url)) method
              {})))
        con_cls size [con_cls.completeUri ++ " METHOD: " ++ method] := by
  unfold answerToConnection
  simp only [hm, isPostOrPut_of_isBodyless method hm, Bool.false_and, Bool.false_eq_true,
    if_false, if_true]

/-- The callback of a request whose method is neither bodyless nor POST or PUT
(lines 526-529). -/
theorem answerToConnection_unsupported (env : Env) (dws : Webserver)
    (connection : MHD_Connection) (url method version upload_data : String) (size : Nat)
    (con_cls : ModdedRequest) (hb : isBodyless method = false) (hp : isPostOrPut method = false) :
    answerToConnection env dws connection url method version upload_data size con_cls =
      { ret := connection.queue_result, con_cls := con_cls, upload_data_size := size,
        log := [con_cls.completeUri ++ " METHOD: " ++ method],
        queued := [method_not_acceptable_page env] } := by
  unfold answerToConnection
  simp only [hb, hp, Bool.false_and, Bool.false_eq_true, if_false]

/-- C5: for every request whose method is not one of GET, HEAD, DELETE, CONNECT,
TRACE, POST or PUT, `answerToConnection` invokes no handler and queues the fixed
method-not-acceptable response, returning what `MHD_queue_response` returned; the
outcome is the same for every endpoint table, also one that has the path registered. -/
theorem unsupported_method_rejected (env : Env) (dws : Webserver)
    (connection : MHD_Connection) (url method version upload_data : String) (size : Nat)
    (con_cls : ModdedRequest)
    (hmethod : method ∉ [MHD_HTTP_METHOD_GET, MHD_HTTP_METHOD_HEAD, MHD_HTTP_METHOD_DELETE,
      MHD_HTTP_METHOD_CONNECT, MHD_HTTP_METHOD_TRACE, MHD_HTTP_METHOD_POST,
      MHD_HTTP_METHOD_PUT]) :
    answerToConnection env dws connection url method version upload_data size con_cls =
      { ret := connection.queue_result, con_cls := con_cls, upload_data_size := size,
        log := [con_cls.completeUri ++ " METHOD: " ++ method],
        routed := [],
        queued := [method_not_acceptable_page env] } ∧
    ∀ other : Webserver,
      answerToConnection env other connection url method version upload_data size con_cls =
        answerToConnection env dws connection url method version upload_data size con_cls := by
  have hn : ¬ (isBodyless method = true ∨ isPostOrPut method = true) :=
    fun h => hmethod ((supported_iff method).mpr h)
  have hb : isBodyless method = false := by
    cases h : isBodyless method with
    | false => rfl
    | true => exact absurd (Or.inl h) hn
  have hp : isPostOrPut method = false := by
    cases h : isPostOrPut method with
    | false => rfl
    | true => exact absurd (Or.inr h) hn
  refine ⟨answerToConnection_unsupported env dws connection url method version upload_data size
    con_cls hb hp, fun other => ?_⟩
  rw [answerToConnection_unsupported env dws connection url method version upload_data size
    con_cls hb hp, answerToConnection_unsupported env other connection url method version
    upload_data size con_cls hb hp]

theorem unsupported_method_rejected_witness :
    answerToConnection sampleEnv { registeredResources := [(endpoint_a_b, 1)] } {}
        "/a/b" "OPTIONS" "HTTP/1.1" "" 0 (uri_log "/a/b") =
      { ret := MHD_YES, con_cls := uri_log "/a/b", upload_data_size := 0,
        log := ["/a/b METHOD: OPTIONS"],
        routed := [],
        queued := [method_not_acceptable_page sampleEnv] } :=
  (unsupported_method_rejected sampleEnv { registeredResources := [(endpoint_a_b, 1)] } {}
    "/a/b" "OPTIONS" "HTTP/1.1" "" 0 (uri_log "/a/b") (by decide)).1

/-- A fold of content-preserving writes preserves the body. -/
theorem content_foldl {α : Type} (f : HttpRequest → α → HttpRequest)
    (hf : ∀ r x, (f r x).content = r.content) (l : List α) :
    ∀ r : HttpRequest, (l.foldl f r).content = r.content := by
  induction l with
  | nil => intro r; rfl
  | cons x rest ih =>
    intro r
    simp only [List.foldl_cons]
    rw [ih, hf]

theorem bindHeaders_content (connection : MHD_Connection) (st_url method : String)
    (dhr : HttpRequest) : (bindHeaders connection st_url method dhr).content = dhr.content := by
  unfold bindHeaders
  simp only
  have h1 : ∀ (l : List (String × String)) (r : HttpRequest),
      (l.foldl (fun r kv => r.setCookie kv.1 kv.2) r).content = r.content := by
    intro l r; apply content_foldl; intro _ _; rfl
  have h2 : ∀ (l : List (String × String)) (r : HttpRequest),
      (l.foldl (fun r kv => r.setFooter kv.1 kv.2) r).content = r.content := by
    intro l r; apply content_foldl; intro _ _; rfl
  have h3 : ∀ (l : List (String × String)) (r : HttpRequest),
      (l.foldl (fun r kv => r.setHeader kv.1 kv.2) r).content = r.content := by
    intro l r; apply content_foldl; intro _ _; rfl
  rw [h1, h2, h3]
  rfl

theorem buildRequestArgs_content (env : Env) (dws : Webserver) (connection : MHD_Connection)
    (dhr : HttpRequest) : (buildRequestArgs env dws connection dhr).content = dhr.content := by
  unfold buildRequestArgs
  apply content_foldl
  intro _ _
  rfl

theorem feedPostProcessor_content (env : Env) (method : String) (pp : Option MHD_PostProcessor)
    (data : String) (dhr : HttpRequest) :
    (feedPostProcessor env method pp data dhr).2.content = dhr.content := by
  unfold feedPostProcessor
  simp only
  split
  · unfold post_process
    cases pp with
    | none => rfl
    | some p =>
      show (List.foldl (fun r kv => r.setArg kv.1 kv.2) dhr (env.post_process p data).2).content
        = dhr.content
      apply content_foldl
      intro _ _
      rfl
  · rfl

theorem bindPeer_content (connection : MHD_Connection) (version : String)
    (supportReq : HttpRequest) :
    (bindPeer connection version supportReq).content = supportReq.content := by
  unfold bindPeer
  simp only
  cases connection.basic_auth with
  | none => rfl
  | some up => rfl

theorem bindUrlPars_content (url_pieces : List String) (url_pars : List String) :
    ∀ (chunkes : List Nat) (supportReq : HttpRequest),
      (bindUrlPars url_pieces supportReq url_pars chunkes).content = supportReq.content := by
  induction url_pars with
  | nil => intro chunkes r; cases chunkes <;> rfl
  | cons par rest ih =>
    intro chunkes r
    cases chunkes with
    | nil => rfl
    | cons pos chunkes =>
      simp only [bindUrlPars]
      rw [ih]
      rfl

/-- A handler read from the table is stored there under a key that is the same key
as the one asked for. -/
theorem ResourceMap.at_eq_some {t : List (HttpEndpoint × HttpResource)} {e : HttpEndpoint}
    {h : HttpResource} (hat : ResourceMap.at t e = some h) :
    ∃ k, (k, h) ∈ t ∧ k.sameKey e = true := by
  unfold ResourceMap.at at hat
  cases hf : t.find? (fun it => it.1.sameKey e) with
  | none => rw [hf] at hat; cases hat
  | some x =>
    rw [hf] at hat
    simp only [Option.map_some', Option.some.injEq] at hat
    subst hat
    have hp := List.find?_some hf
    exact ⟨x.1, List.mem_of_find?_eq_some hf, hp⟩

/-- On a registered path (an exact key, or matched by some registered endpoint) the
resolution invokes exactly one handler, the one stored in the table for an endpoint
that is the exact key of the path or matches it, with a request that has the body of
the assembled one, and queues that handler's response. -/
theorem dispatch_routes (env : Env) (dws : Webserver) (st_url : String)
    (supportReq : HttpRequest) (mr : ModdedRequest) (size : Nat) (log : List String)
    (hv : ResourceMap.Valid dws.registeredResources)
    (hreg : ResourceMap.count dws.registeredResources (HttpEndpoint.ofUrl st_url) > 0 ∨
      ∃ it ∈ dws.registeredResources, it.1.match_url (HttpEndpoint.ofUrl st_url) = true) :
    ∃ e h req, (e, h) ∈ dws.registeredResources ∧
      (e.sameKey (HttpEndpoint.ofUrl st_url) = true ∨
        e.match_url (HttpEndpoint.ofUrl st_url) = true) ∧
      (dispatch env dws st_url supportReq mr size log).routed = [(h, req)] ∧
      req.content = supportReq.content ∧
      (dispatch env dws st_url supportReq mr size log).queued
        = [materialize env (env.routeRequest h req)] ∧
      (dispatch env dws st_url supportReq mr size log).ret = MHD_YES := by
  by_cases hk : ResourceMap.count dws.registeredResources (HttpEndpoint.ofUrl st_url) > 0
  · have hany : dws.registeredResources.any
        (fun it => it.1.sameKey (HttpEndpoint.ofUrl st_url)) = true := by
      by_contra hc
      unfold ResourceMap.count at hk
      rw [if_neg hc] at hk
      exact absurd hk (lt_irrefl 0)
    obtain ⟨it, hit, hsame⟩ := List.any_eq_true.mp hany
    obtain ⟨h, hat⟩ := ResourceMap.at_isSome ⟨it, hit, hsame⟩
    obtain ⟨k, hkmem, hksame⟩ := ResourceMap.at_eq_some hat
    rw [dispatch_exact env dws st_url supportReq mr size log h hk hat]
    exact ⟨k, h, supportReq, hkmem, Or.inl hksame, rfl, rfl, rfl, rfl⟩
  · have hk0 : ResourceMap.count dws.registeredResources (HttpEndpoint.ofUrl st_url) = 0 :=
      Nat.eq_zero_of_not_pos hk
    rcases hreg with hpos | ⟨it, hit, hm⟩
    · exact absurd hpos hk
    · obtain ⟨hsound, hall⟩ := scanResources_spec dws.registeredResources
        (HttpEndpoint.ofUrl st_url)
      have hfound := (hall it hit hm).1
      obtain ⟨_, hmatch, resource, hmem⟩ := hsound.2 hfound
      have hat := ResourceMap.at_of_mem hv hmem
      rw [dispatch_pattern env dws st_url supportReq mr size log resource hk0 hfound hat]
      exact ⟨_, resource, _, hmem, Or.inr hmatch, rfl, bindUrlPars_content _ _ _ _, rfl, rfl⟩

theorem uploaded_length (c : String) : uploaded c c.length = c := by
  unfold uploaded
  show String.mk (List.take c.data.length c.data) = c
  rw [List.take_length]

theorem length_ne_zero_of_ne_empty (c : String) (h : c ≠ "") : c.length ≠ 0 := by
  intro h0
  apply h
  have : c.data.length = 0 := h0
  have hd : c.data = [] := List.length_eq_zero.mp this
  exact String.ext hd

/-- Decoding the url buffer once more after `n` callbacks gives the buffer after
`n + 1` callbacks. -/
theorem internal_unescaper_urlAfter (env : Env) (dws : Webserver) (n : Nat) :
    ∀ url : String,
      internal_unescaper env dws (urlAfter env dws n url) = urlAfter env dws (n + 1) url := by
  induction n with
  | zero => intro url; rfl
  | succ n ih =>
    intro url
    show internal_unescaper env dws (urlAfter env dws n (internal_unescaper env dws url)) = _
    rw [ih]
    rfl

/-- The chunk callbacks of a POST or PUT request, on a context past its first
callback: none invokes a handler or queues a response, each zeroes the counter and
returns `MHD_YES`, the context they leave holds the old body followed by the chunks
in arrival order, and the url buffer has been decoded once per callback. -/
theorem feedChunks_spec (env : Env) (dws : Webserver) (connection : MHD_Connection)
    (method version : String) (hm : isPostOrPut method = true) (chunks : List String) :
    ∀ (url : String) (mr : ModdedRequest) (r : HttpRequest),
      mr.second = true → mr.dhr = some r → (∀ c ∈ chunks, c ≠ "") →
      (feedChunks env dws connection method version url mr chunks).1
        = urlAfter env dws chunks.length url ∧
      (feedChunks env dws connection method version url mr chunks).2.1.second = true ∧
      (∃ r', (feedChunks env dws connection method version url mr chunks).2.1.dhr = some r' ∧
        r'.content = chunks.foldl (fun acc c => acc ++ c) r.content) ∧
      (feedChunks env dws connection method version url mr chunks).2.2.length
        = chunks.length ∧
      ∀ out ∈ (feedChunks env dws connection method version url mr chunks).2.2,
        out.routed = [] ∧ out.queued = [] ∧ out.upload_data_size = 0 ∧ out.ret = MHD_YES := by
  induction chunks with
  | nil =>
    intro url mr r hs hd _
    exact ⟨rfl, hs, ⟨r, hd, rfl⟩, rfl, fun out hout => by cases hout⟩
  | cons c cs ih =>
    intro url mr r hs hd hne
    have hc : c.length ≠ 0 := length_ne_zero_of_ne_empty c (hne c (List.mem_cons_self _ _))
    have hstep := answerToConnection_chunk env dws connection url method version c c.length mr
      hm hs hc
    rw [uploaded_length] at hstep
    simp only [feedChunks]
    rw [hstep]
    have hrest := ih (internal_unescaper env dws url)
      { mr with
        pp := (feedPostProcessor env method mr.pp c
          (bindHeaders connection (env.standardizeUrl (internal_unescaper env dws url)) method
            (mr.dhr.getD {}))).1,
        dhr := some ((feedPostProcessor env method mr.pp c
          (bindHeaders connection (env.standardizeUrl (internal_unescaper env dws url)) method
            (mr.dhr.getD {}))).2.growContent c) }
      ((feedPostProcessor env method mr.pp c
        (bindHeaders connection (env.standardizeUrl (internal_unescaper env dws url)) method
          (mr.dhr.getD {}))).2.growContent c) hs rfl
      (fun x hx => hne x (List.mem_cons_of_mem _ hx))
    obtain ⟨h0, h1, ⟨r', hr', hcont⟩, h3, h4⟩ := hrest
    refine ⟨h0, h1, ⟨r', hr', ?_⟩, by simp only [List.length_cons, h3], ?_⟩
    · rw [hcont]
      simp only [HttpRequest.growContent, List.foldl_cons]
      rw [feedPostProcessor_content, bindHeaders_content, hd]
      rfl
    · intro out hout
      rcases List.mem_cons.mp hout with heq | hin
      · subst heq
        exact ⟨rfl, rfl, rfl, rfl⟩
      · exact h4 out hin

/-- What holds of a chunked delivery, on the url each callback receives: for a POST or
PUT request delivered on a fresh context as a first callback, one callback per
non-empty body chunk and one callback reporting zero remaining bytes, the first
callback and every chunk callback invoke no handler, queue nothing and return
`MHD_YES`, and each chunk callback sets the bytes-remaining counter to 0.  The final
callback resolves the url buffer as the callbacks before it left it, decoded once per
callback, `chunks.length + 2` times in all; when that path is registered it invokes
exactly one handler, once, with a request whose body is the concatenation of the
chunks in arrival order. -/
theorem chunked_body_reaches_handler_once (env : Env) (dws : Webserver)
    (connection : MHD_Connection) (url method version : String) (con_cls : ModdedRequest)
    (chunks : List String)
    (hm : method = MHD_HTTP_METHOD_POST ∨ method = MHD_HTTP_METHOD_PUT)
    (hs : con_cls.second = false)
    (hne : ∀ c ∈ chunks, c ≠ "")
    (hv : ResourceMap.Valid dws.registeredResources)
    (hreg : ResourceMap.count dws.registeredResources
        (HttpEndpoint.ofUrl (env.standardizeUrl (urlAfter env dws (chunks.length + 2) url)))
          > 0 ∨
      ∃ it ∈ dws.registeredResources,
        it.1.match_url
          (HttpEndpoint.ofUrl (env.standardizeUrl (urlAfter env dws (chunks.length + 2) url)))
          = true) :
    (deliver env dws connection url method version con_cls chunks).first.routed = [] ∧
    (deliver env dws connection url method version con_cls chunks).first.queued = [] ∧
    (deliver env dws connection url method version con_cls chunks).first.ret = MHD_YES ∧
    (deliver env dws connection url method version con_cls chunks).chunks.length
      = chunks.length ∧
    (∀ out ∈ (deliver env dws connection url method version con_cls chunks).chunks,
      out.routed = [] ∧ out.queued = [] ∧ out.upload_data_size = 0 ∧ out.ret = MHD_YES) ∧
    ∃ e h req, (e, h) ∈ dws.registeredResources ∧
      (e.sameKey
          (HttpEndpoint.ofUrl (env.standardizeUrl (urlAfter env dws (chunks.length + 2) url)))
          = true ∨
        e.match_url
          (HttpEndpoint.ofUrl (env.standardizeUrl (urlAfter env dws (chunks.length + 2) url)))
          = true) ∧
      (deliver env dws connection url method version con_cls chunks).final.routed = [(h, req)] ∧
      req.content = String.join chunks := by
  have hp : isPostOrPut method = true := by
    unfold isPostOrPut
    rcases hm with h | h <;> subst h <;> decide
  have hfirst := answerToConnection_first env dws connection url method version "" 0 con_cls
    hp hs
  obtain ⟨hurl, hsec, ⟨r', hr', hcont⟩, hlen, hall⟩ := feedChunks_spec env dws connection
    method version hp chunks (internal_unescaper env dws url)
    { con_cls with
      second := true, dhr := some {},
      pp := match connection.headers.lookup http_header_content_type with
        | some enc =>
          if method == MHD_HTTP_METHOD_POST && isFormUrlencoded enc then
            env.create_post_processor connection
          else none
        | none => none }
    {} rfl rfl hne
  have hfinalurl : internal_unescaper env dws
      (urlAfter env dws chunks.length (internal_unescaper env dws url))
      = urlAfter env dws (chunks.length + 2) url := by
    rw [internal_unescaper_urlAfter]
    rfl
  unfold deliver
  simp only
  rw [hfirst]
  simp only
  refine ⟨trivial, trivial, trivial, hlen, hall, ?_⟩
  rw [answerToConnection_final env dws connection _ method version "" _ hp hsec]
  rw [hurl, hfinalurl]
  obtain ⟨e, h, req, hemem, hekind, hrouted, hcontent, _, _⟩ := dispatch_routes env dws
    (env.standardizeUrl (urlAfter env dws (chunks.length + 2) url))
    (bindPeer connection version
      (feedPostProcessor env method
        (feedChunks env dws connection method version (internal_unescaper env dws url)
          { con_cls with
            second := true, dhr := some {},
            pp := match connection.headers.lookup http_header_content_type with
              | some enc =>
                if method == MHD_HTTP_METHOD_POST && isFormUrlencoded enc then
                  env.create_post_processor connection
                else none
              | none => none } chunks).2.1.pp (uploaded "" 0)
        (bindHeaders connection
          (env.standardizeUrl (urlAfter env dws (chunks.length + 2) url)) method
          ((feedChunks env dws connection method version (internal_unescaper env dws url)
            { con_cls with
              second := true, dhr := some {},
              pp := match connection.headers.lookup http_header_content_type with
                | some enc =>
                  if method == MHD_HTTP_METHOD_POST && isFormUrlencoded enc then
                    env.create_post_processor connection
                  else none
                | none => none } chunks).2.1.dhr.getD {}))).2)
    _ 0 [_] hv hreg
  refine ⟨e, h, req, hemem, hekind, hrouted, ?_⟩
  rw [hcontent, bindPeer_content, feedPostProcessor_content, bindHeaders_content, hr']
  exact hcont

theorem chunked_body_reaches_handler_once_witness :
    ∃ h req,
      (deliver sampleEnv { registeredResources := [(endpoint_a_b, 1)] } {} "/a/b" "POST"
        "HTTP/1.1" (uri_log "/a/b") ["foo=", "bar"]).final.routed = [(h, req)] ∧
      req.content = "foo=bar" := by
  obtain ⟨_, h, req, _, _, hrouted, hcontent⟩ :=
    (chunked_body_reaches_handler_once sampleEnv { registeredResources := [(endpoint_a_b, 1)] }
      {} "/a/b" "POST" "HTTP/1.1" (uri_log "/a/b") ["foo=", "bar"] (Or.inl rfl) rfl (by decide)
      (by decide) (Or.inl (by decide))).2.2.2.2.2
  exact ⟨h, req, hrouted, hcontent⟩

/-- C6 (the code at the failing inputs): with `/a+b` registered and the default
decoder, `GET /a%2Bb` reaches its handler, the url being decoded once to `/a+b`.  The
same url sent as a POST with the body chunk `x` is decoded in place by each of its
three callbacks, so the final callback resolves `/a b`, invokes no handler and queues
the not-found page.  Likewise with `/a%41` registered: `GET /a%2541` reaches the
handler, and a POST of it without body chunks resolves `/aA` in its final callback and
is answered not found. -/
theorem chunked_post_on_encoded_path_not_routed :
    HttpEndpoint.ofTemplate "/a+b" false = Except.ok endpoint_a_plus_b ∧
    (answerToConnection decodingEnv { registeredResources := [(endpoint_a_plus_b, 1)] } {}
      "/a%2Bb" "GET" "HTTP/1.1" "" 0 (uri_log "/a%2Bb")).routed.map
        (fun call => (call.1, call.2.path)) = [(1, "/a+b")] ∧
    urlAfter decodingEnv { registeredResources := [(endpoint_a_plus_b, 1)] } 3 "/a%2Bb"
      = "/a b" ∧
    (deliver decodingEnv { registeredResources := [(endpoint_a_plus_b, 1)] } {} "/a%2Bb" "POST"
      "HTTP/1.1" (uri_log "/a%2Bb") ["x"]).first.routed = [] ∧
    (deliver decodingEnv { registeredResources := [(endpoint_a_plus_b, 1)] } {} "/a%2Bb" "POST"
      "HTTP/1.1" (uri_log "/a%2Bb") ["x"]).chunks.map (fun out => out.routed) = [[]] ∧
    (deliver decodingEnv { registeredResources := [(endpoint_a_plus_b, 1)] } {} "/a%2Bb" "POST"
      "HTTP/1.1" (uri_log "/a%2Bb") ["x"]).final.routed = [] ∧
    (deliver decodingEnv { registeredResources := [(endpoint_a_plus_b, 1)] } {} "/a%2Bb" "POST"
      "HTTP/1.1" (uri_log "/a%2Bb") ["x"]).final.queued = [not_found_page decodingEnv] ∧
    HttpEndpoint.ofTemplate "/a%41" false = Except.ok endpoint_a_percent_41 ∧
    (answerToConnection decodingEnv { registeredResources := [(endpoint_a_percent_41, 1)] } {}
      "/a%2541" "GET" "HTTP/1.1" "" 0 (uri_log "/a%2541")).routed.map
        (fun call => (call.1, call.2.path)) = [(1, "/a%41")] ∧
    (deliver decodingEnv { registeredResources := [(endpoint_a_percent_41, 1)] } {} "/a%2541"
      "POST" "HTTP/1.1" (uri_log "/a%2541") []).final.routed = [] ∧
    (deliver decodingEnv { registeredResources := [(endpoint_a_percent_41, 1)] } {} "/a%2541"
      "POST" "HTTP/1.1" (uri_log "/a%2541") []).final.queued = [not_found_page decodingEnv] := by
  refine ⟨rfl, ?_, ?_, ?_, ?_, ?_, ?_, rfl, ?_, ?_, ?_⟩ <;> decide

/-- C7: for every request with a bodyless method (GET, HEAD, DELETE, CONNECT, TRACE)
whose path resolves to a registered endpoint (an exact key, or matched by a registered
endpoint), a single callback of `answerToConnection` invokes exactly one handler,
once, the one registered for an endpoint that is the exact key of the path or matches
it, with a request whose body is empty, and queues that handler's response; this
holds whatever body bytes the transport reports, in particular for zero bytes. -/
theorem bodyless_request_dispatched_once (env : Env) (dws : Webserver)
    (connection : MHD_Connection) (url method version upload_data : String) (size : Nat)
    (con_cls : ModdedRequest)
    (hm : method ∈ [MHD_HTTP_METHOD_GET, MHD_HTTP_METHOD_HEAD, MHD_HTTP_METHOD_DELETE,
      MHD_HTTP_METHOD_CONNECT, MHD_HTTP_METHOD_TRACE])
    (hv : ResourceMap.Valid dws.registeredResources)
    (hreg : ResourceMap.count dws.registeredResources
        (HttpEndpoint.ofUrl (env.standardizeUrl (internal_unescaper env dws url))) > 0 ∨
      ∃ it ∈ dws.registeredResources,
        it.1.match_url (HttpEndpoint.ofUrl (env.standardizeUrl (internal_unescaper env dws url)))
          = true) :
    ∃ e h req, (e, h) ∈ dws.registeredResources ∧
      (e.sameKey (HttpEndpoint.ofUrl (env.standardizeUrl (internal_unescaper env dws url)))
          = true ∨
        e.match_url (HttpEndpoint.ofUrl (env.standardizeUrl (internal_unescaper env dws url)))
          = true) ∧
      (answerToConnection env dws connection url method version upload_data size con_cls).routed
        = [(h, req)] ∧
      req.content = "" ∧
      (answerToConnection env dws connection url method version upload_data size con_cls).queued
        = [materialize env (env.routeRequest h req)] := by
  have hb : isBodyless method = true := by
    unfold isBodyless
    simp only [List.mem_cons, List.mem_singleton, List.mem_nil_iff, or_false] at hm
    rcases hm with h | h | h | h | h <;> subst h <;> decide
  rw [answerToConnection_bodyless env dws connection url method version upload_data size
    con_cls hb]
  obtain ⟨e, h, req, hemem, hekind, hrouted, hcontent, hqueued, _⟩ := dispatch_routes env dws
    (env.standardizeUrl (internal_unescaper env dws url))
    (bindPeer connection version
      (buildRequestArgs env dws connection
        (bindHeaders connection (env.standardizeUrl (internal_unescaper env dws url)) method {})))
    con_cls size [con_cls.completeUri ++ " METHOD: " ++ method] hv hreg
  refine ⟨e, h, req, hemem, hekind, hrouted, ?_, hqueued⟩
  rw [hcontent, bindPeer_content, buildRequestArgs_content, bindHeaders_content]

theorem bodyless_request_dispatched_once_witness :
    ∃ h req,
      (answerToConnection sampleEnv { registeredResources := [(endpoint_users_id, 7)] } {}
        "/users/42" "GET" "HTTP/1.1" "" 0 (uri_log "/users/42")).routed = [(h, req)] ∧
      req.content = "" := by
  obtain ⟨_, h, req, _, _, hrouted, hcontent, _⟩ :=
    bodyless_request_dispatched_once sampleEnv
      { registeredResources := [(endpoint_users_id, 7)] } {} "/users/42" "GET" "HTTP/1.1" "" 0
      (uri_log "/users/42") (by decide) (by decide)
      (Or.inr ⟨(endpoint_users_id, 7), by decide, by decide⟩)
  exact ⟨h, req, hrouted, hcontent⟩

/-- The resolution invokes at most one handler, and none without queuing a response. -/
theorem dispatch_at_most_one (env : Env) (dws : Webserver) (st_url : String)
    (supportReq : HttpRequest) (mr : ModdedRequest) (size : Nat) (log : List String) :
    (dispatch env dws st_url supportReq mr size log).routed.length ≤ 1 ∧
    ((dispatch env dws st_url supportReq mr size log).queued.isEmpty = true →
      (dispatch env dws st_url supportReq mr size log).routed = []) := by
  unfold dispatch
  simp only
  split
  · split <;> simp
  · split
    · simp
    · split <;> simp

/-- One callback invokes at most one handler, and none without queuing a response. -/
theorem answerToConnection_at_most_one (env : Env) (dws : Webserver)
    (connection : MHD_Connection) (url method version upload_data : String) (size : Nat)
    (con_cls : ModdedRequest) :
    (answerToConnection env dws connection url method version upload_data size
      con_cls).routed.length ≤ 1 ∧
    ((answerToConnection env dws connection url method version upload_data size
      con_cls).queued.isEmpty = true →
      (answerToConnection env dws connection url method version upload_data size
        con_cls).routed = []) := by
  cases hb : isBodyless method with
  | true =>
    rw [answerToConnection_bodyless env dws connection url method version upload_data size
      con_cls hb]
    exact dispatch_at_most_one _ _ _ _ _ _ _
  | false =>
    cases hp : isPostOrPut method with
    | false =>
      rw [answerToConnection_unsupported env dws connection url method version upload_data
        size con_cls hb hp]
      simp
    | true =>
      cases hs : con_cls.second with
      | false =>
        rw [answerToConnection_first env dws connection url method version upload_data size
          con_cls hp hs]
        simp
      | true =>
        by_cases hsize : size = 0
        · subst hsize
          rw [answerToConnection_final env dws connection url method version upload_data
            con_cls hp hs]
          exact dispatch_at_most_one _ _ _ _ _ _ _
        · rw [answerToConnection_chunk env dws connection url method version upload_data size
            con_cls hp hs hsize]
          simp

/-- What holds of the callbacks on one context when the transport accepts the queued
response: `answerToConnection` keeps no answered state, but each callback invokes at
most one handler and none without calling `MHD_queue_response`, so on every sequence
of callbacks libmicrohttpd makes on a connection where `MHD_queue_response` returns
`MHD_YES`, the handler is invoked at most once per context. -/
theorem at_most_one_invocation_when_queue_accepted (env : Env) (dws : Webserver)
    (connection : MHD_Connection) (method version : String)
    (hq : connection.queue_result = MHD_YES)
    (calls : List (String × Nat)) :
    ∀ (url : String) (con_cls : ModdedRequest),
      invocations (transportCallbacks env dws connection method version url con_cls calls)
        ≤ 1 := by
  induction calls with
  | nil => intro _ _; simp [transportCallbacks, invocations]
  | cons call rest ih =>
    intro url con_cls
    have h1 := answerToConnection_at_most_one env dws connection url method version
      call.1 call.2 con_cls
    have hone : invocations
        [answerToConnection env dws connection url method version call.1 call.2 con_cls]
        ≤ 1 := by
      simp only [invocations, List.map_cons, List.sum_cons, List.map_nil, List.sum_nil,
        add_zero]
      exact h1.1
    simp only [transportCallbacks]
    split
    · exact hone
    · split
      · exact hone
      · rename_i hacc
        have hempty : (answerToConnection env dws connection url method version call.1 call.2
            con_cls).queued.isEmpty = true := by
          cases he : (answerToConnection env dws connection url method version call.1 call.2
              con_cls).queued.isEmpty with
          | true => rfl
          | false =>
            apply absurd _ hacc
            rw [he, hq]
            decide
        have hr := h1.2 hempty
        have := ih (internal_unescaper env dws url)
          (answerToConnection env dws connection url method version call.1 call.2
            con_cls).con_cls
        simp only [invocations, List.map_cons, List.sum_cons, hr, List.length_nil, zero_add]
        exact this

theorem at_most_one_invocation_when_queue_accepted_witness :
    invocations (transportCallbacks sampleEnv { registeredResources := [(endpoint_a_b, 1)] } {}
      "POST" "HTTP/1.1" "/a/b" (uri_log "/a/b") [("", 0), ("x", 1), ("", 0), ("", 0)]) ≤ 1 :=
  at_most_one_invocation_when_queue_accepted sampleEnv
    { registeredResources := [(endpoint_a_b, 1)] } {} "POST" "HTTP/1.1" rfl
    [("", 0), ("x", 1), ("", 0), ("", 0)] "/a/b" (uri_log "/a/b")

/-- C8 (the code at the failing input): on a connection where `MHD_queue_response`
refuses the response (returns `MHD_NO`), a `GET /a/b` callback with `/a/b` registered
invokes the handler, calls `MHD_queue_response` and still returns `MHD_YES` (line
672), so the transport, left without a response, makes the next callback on the same
context, and that one invokes the handler again: two invocations on one context.
Where the queue is accepted the same run ends after the first callback. -/
theorem refused_queue_invokes_handler_again :
    (transportCallbacks sampleEnv { registeredResources := [(endpoint_a_b, 1)] }
      { queue_result := MHD_NO } "GET" "HTTP/1.1" "/a/b" (uri_log "/a/b")
      [("", 0), ("", 0)]).map
        (fun out => (out.ret, out.routed.map Prod.fst, out.queued.length))
      = [(MHD_YES, [1], 1), (MHD_YES, [1], 1)] ∧
    invocations (transportCallbacks sampleEnv { registeredResources := [(endpoint_a_b, 1)] }
      { queue_result := MHD_NO } "GET" "HTTP/1.1" "/a/b" (uri_log "/a/b")
      [("", 0), ("", 0)]) = 2 ∧
    (transportCallbacks sampleEnv { registeredResources := [(endpoint_a_b, 1)] }
      { queue_result := MHD_NO } "POST" "HTTP/1.1" "/a/b" (uri_log "/a/b")
      [("", 0), ("x", 1), ("", 0), ("", 0)]).map
        (fun out => (out.ret, out.routed.map Prod.fst, out.queued.length))
      = [(MHD_YES, [], 0), (MHD_YES, [], 0), (MHD_YES, [1], 1), (MHD_YES, [1], 1)] ∧
    (transportCallbacks sampleEnv { registeredResources := [(endpoint_a_b, 1)] }
      { queue_result := MHD_YES } "GET" "HTTP/1.1" "/a/b" (uri_log "/a/b")
      [("", 0), ("", 0)]).map
        (fun out => (out.ret, out.routed.map Prod.fst, out.queued.length))
      = [(MHD_YES, [1], 1)] := by
  decide

/-- C9 (the code at the failing inputs): for every request the not-found page is
status 404 with body `NOT_FOUND_ERROR` and the method-not-acceptable page is status
`MHD_HTTP_METHOD_NOT_ACCEPTABLE`, which is 406 and not 405, with body
`NOT_METHOD_ERROR`; each carries one header, `Content-Encoding: application/json`,
and no header named `Content-Type`.  So `GET /missing` on an empty table and
`OPTIONS /a/b` queue exactly these. -/
theorem fixed_pages_as_queued (env : Env) :
    not_found_page env =
      (404, { body := ResponseBody.buffer env.NOT_FOUND_ERROR,
              headers := [("Content-Encoding", "application/json")] }) ∧
    method_not_acceptable_page env =
      (406, { body := ResponseBody.buffer env.NOT_METHOD_ERROR,
              headers := [("Content-Encoding", "application/json")] }) ∧
    (not_found_page env).2.headers.lookup http_header_content_type = none ∧
    (method_not_acceptable_page env).2.headers.lookup http_header_content_type = none ∧
    (answerToConnection sampleEnv {} {} "/missing" "GET" "HTTP/1.1" "" 0
      (uri_log "/missing")).queued = [not_found_page sampleEnv] ∧
    (answerToConnection sampleEnv { registeredResources := [(endpoint_a_b, 1)] } {} "/a/b"
      "OPTIONS" "HTTP/1.1" "" 0 (uri_log "/a/b")).queued
        = [method_not_acceptable_page sampleEnv] := by
  refine ⟨rfl, rfl, ?_, ?_, ?_, ?_⟩
  · show List.lookup "Content-Type" [("Content-Encoding", "application/json")] = none
    decide
  · show List.lookup "Content-Type" [("Content-Encoding", "application/json")] = none
    decide
  · decide
  · decide

/-- Headers, footers and cookies leave the arguments alone. -/
theorem bindHeaders_args (connection : MHD_Connection) (st_url method : String)
    (dhr : HttpRequest) : (bindHeaders connection st_url method dhr).args = dhr.args := by
  have hgen : ∀ (f : HttpRequest → String × String → HttpRequest),
      (∀ r x, (f r x).args = r.args) →
      ∀ (l : List (String × String)) (r : HttpRequest), (l.foldl f r).args = r.args := by
    intro f hf l
    induction l with
    | nil => intro r; rfl
    | cons x rest ih => intro r; simp only [List.foldl_cons]; rw [ih, hf]
  unfold bindHeaders
  simp only
  rw [hgen (fun r kv => r.setCookie kv.1 kv.2) (fun _ _ => rfl),
    hgen (fun r kv => r.setFooter kv.1 kv.2) (fun _ _ => rfl),
    hgen (fun r kv => r.setHeader kv.1 kv.2) (fun _ _ => rfl)]
  rfl

theorem bindPeer_args (connection : MHD_Connection) (version : String)
    (supportReq : HttpRequest) :
    (bindPeer connection version supportReq).args = supportReq.args := by
  unfold bindPeer
  simp only
  cases connection.basic_auth with
  | none => rfl
  | some up => rfl

/-- Last write wins: after a run of writes the value of a key is that of the last
write to it, or the earlier value when the run does not write it. -/
theorem lookup_foldl_assign (kvs : List (String × String)) :
    ∀ (m : List (String × String)) (k : String),
      (kvs.foldl (fun m kv => assign m kv.1 kv.2) m).lookup k =
        match kvs.reverse.lookup k with
        | some v => some v
        | none => m.lookup k := by
  induction kvs using List.reverseRecOn with
  | nil => intro m k; rfl
  | append_singleton rest kv ih =>
    intro m k
    obtain ⟨a, b⟩ := kv
    rw [List.foldl_append, List.reverse_append]
    simp only [List.foldl_cons, List.foldl_nil, List.reverse_cons, List.reverse_nil,
      List.nil_append, List.singleton_append]
    rw [lookup_assign, lookup_cons_ite, ih]
    by_cases h : k = a
    · simp [h]
    · simp [h]

/-- Every name in a list of pairs has a last occurrence. -/
theorem exists_last_occurrence (l : List (String × Nat)) (name : String)
    (h : name ∈ l.map Prod.fst) :
    ∃ pre pos post, l = pre ++ (name, pos) :: post ∧ name ∉ post.map Prod.fst := by
  induction l with
  | nil => cases h
  | cons hd rest ih =>
    by_cases hr : name ∈ rest.map Prod.fst
    · obtain ⟨pre, pos, post, hsplit, hnot⟩ := ih hr
      exact ⟨hd :: pre, pos, post, by rw [hsplit]; rfl, hnot⟩
    · simp only [List.map_cons, List.mem_cons] at h
      rcases h with h | h
      · obtain ⟨a, p⟩ := hd
        simp only at h
        subst h
        exact ⟨[], p, rest, rfl, hr⟩
      · exact absurd h hr

theorem foldl_assign_map {α : Type} (l : List α) (key value : α → String)
    (m : List (String × String)) :
    l.foldl (fun m x => assign m (key x) (value x)) m =
      (l.map (fun x => (key x, value x))).foldl (fun m kv => assign m kv.1 kv.2) m := by
  rw [List.foldl_map]

/-- C10: for every bodyless-method request dispatched through pattern matching (the
path is no exact key and the scan ends on the registered endpoint `sel`), the argument
mapping the handler receives is the query arguments (values decoded) written first and
the placeholder bindings of `sel` written after them, last write wins: an argument
whose name is not a placeholder name has the value of the last query argument of that
name, and an argument whose name is a placeholder name has the value of a path segment
at a position of that placeholder, whether or not the query carries the name too. -/
theorem path_bindings_override_query_args (env : Env) (dws : Webserver)
    (connection : MHD_Connection) (url method version upload_data : String) (size : Nat)
    (con_cls : ModdedRequest) (sel : HttpEndpoint)
    (hm : method ∈ [MHD_HTTP_METHOD_GET, MHD_HTTP_METHOD_HEAD, MHD_HTTP_METHOD_DELETE,
      MHD_HTTP_METHOD_CONNECT, MHD_HTTP_METHOD_TRACE])
    (hk : ResourceMap.count dws.registeredResources
      (HttpEndpoint.ofUrl (env.standardizeUrl (internal_unescaper env dws url))) = 0)
    (hfound : (scanResources dws.registeredResources
      (HttpEndpoint.ofUrl (env.standardizeUrl (internal_unescaper env dws url)))).found = true)
    (hsel : (scanResources dws.registeredResources
      (HttpEndpoint.ofUrl (env.standardizeUrl (internal_unescaper env dws url)))).matchingEndpoint
        = sel) :
    ∃ h req,
      (answerToConnection env dws connection url method version upload_data size con_cls).routed
        = [(h, req)] ∧
      req.args = sel.paramPositions.foldl
        (fun m np => assign m np.1
          ((pathSegments (env.standardizeUrl (internal_unescaper env dws url))).getD np.2 ""))
        (connection.get_arguments.foldl
          (fun m kv => assign m kv.1 (internal_unescaper env dws kv.2)) []) ∧
      (∀ k : String, k ∉ sel.get_url_pars →
        req.getArg k = (connection.get_arguments.map
          (fun kv => (kv.1, internal_unescaper env dws kv.2))).reverse.lookup k) ∧
      (∀ name : String, name ∈ sel.get_url_pars →
        ∃ (pos : Nat) (v : String), (name, pos) ∈ sel.paramPositions ∧
          (pathSegments (env.standardizeUrl (internal_unescaper env dws url)))[pos]? = some v ∧
          req.getArg name = some v) := by
  have hb : isBodyless method = true := by
    unfold isBodyless
    simp only [List.mem_cons, List.mem_singleton, List.mem_nil_iff, or_false] at hm
    rcases hm with h | h | h | h | h <;> subst h <;> decide
  obtain ⟨hsound, _⟩ := scanResources_spec dws.registeredResources
    (HttpEndpoint.ofUrl (env.standardizeUrl (internal_unescaper env dws url)))
  obtain ⟨_, hmatch, resource, hmem⟩ := hsound.2 hfound
  obtain ⟨h, hat⟩ := ResourceMap.at_isSome ⟨_, hmem, HttpEndpoint.sameKey_self _⟩
  rw [answerToConnection_bodyless env dws connection url method version upload_data size
    con_cls hb, dispatch_pattern env dws _ _ _ _ _ h hk hfound hat]
  rw [hsel] at hmatch
  rw [hsel]
  have hargs : (bindUrlPars
      (HttpEndpoint.ofUrl (env.standardizeUrl (internal_unescaper env dws url))).get_url_pieces
      (bindPeer connection version
        (buildRequestArgs env dws connection
          (bindHeaders connection (env.standardizeUrl (internal_unescaper env dws url)) method
            {})))
      sel.get_url_pars sel.get_chunk_positions).args =
      sel.paramPositions.foldl
        (fun m np => assign m np.1
          ((pathSegments (env.standardizeUrl (internal_unescaper env dws url))).getD np.2 ""))
        (connection.get_arguments.foldl
          (fun m kv => assign m kv.1 (internal_unescaper env dws kv.2)) []) := by
    rw [get_url_pieces_ofUrl]
    unfold HttpEndpoint.get_url_pars HttpEndpoint.get_chunk_positions
    rw [bindUrlPars_eq_foldl]
    rw [args_foldl_setArg sel.paramPositions Prod.fst
      (fun np => (pathSegments (env.standardizeUrl (internal_unescaper env dws url))).getD
        np.2 "")]
    rw [bindPeer_args]
    unfold buildRequestArgs
    rw [args_foldl_setArg connection.get_arguments Prod.fst
      (fun kv => internal_unescaper env dws kv.2)]
    rw [bindHeaders_args]
  refine ⟨h, _, rfl, hargs, ?_, ?_⟩
  · intro k hknot
    unfold HttpRequest.getArg
    rw [hargs, foldl_assign_map sel.paramPositions Prod.fst, lookup_foldl_assign_of_not_mem,
      foldl_assign_map connection.get_arguments Prod.fst, lookup_foldl_assign]
    · cases (connection.get_arguments.map
          (fun kv => (kv.1, internal_unescaper env dws kv.2))).reverse.lookup k <;> rfl
    · simpa [List.map_map, Function.comp_def, HttpEndpoint.get_url_pars] using hknot
  · intro name hname
    obtain ⟨pre, pos, post, hsplit, hnot⟩ := exists_last_occurrence sel.paramPositions name hname
    have hin : (name, pos) ∈ sel.paramPositions := by rw [hsplit]; simp
    have hbd := paramPositionsFrom_bounds sel.template 0 (name, pos) hin
    have hlen := match_url_length sel _ hmatch
    rw [get_url_pieces_ofUrl] at hlen
    have hpos_lt : pos <
        (pathSegments (env.standardizeUrl (internal_unescaper env dws url))).length := by
      have := hbd.2
      simp only at this
      omega
    refine ⟨pos, _, hin, List.getElem?_eq_getElem hpos_lt, ?_⟩
    unfold HttpRequest.getArg
    rw [hargs, foldl_assign_map sel.paramPositions Prod.fst, hsplit, List.map_append,
      List.map_cons, lookup_foldl_assign_last]
    · simp [List.getD_eq_getElem?_getD, List.getElem?_eq_getElem hpos_lt]
    · simpa [List.map_map, Function.comp_def] using hnot

theorem path_bindings_override_query_args_witness :
    ∃ h req,
      (answerToConnection sampleEnv { registeredResources := [(endpoint_users_id, 7)] }
        { get_arguments := [("id", "9"), ("page", "2")] } "/users/42" "GET" "HTTP/1.1" "" 0
        (uri_log "/users/42?id=9&page=2")).routed = [(h, req)] ∧
      req.getArg "page" = some "2" ∧ req.getArg "id" = some "42" := by
  obtain ⟨h, req, hr, _, hq, hp⟩ := path_bindings_override_query_args sampleEnv
    { registeredResources := [(endpoint_users_id, 7)] }
    { get_arguments := [("id", "9"), ("page", "2")] } "/users/42" "GET" "HTTP/1.1" "" 0
    (uri_log "/users/42?id=9&page=2") endpoint_users_id (by decide) (by decide) (by decide)
    (by decide)
  refine ⟨h, req, hr, ?_, ?_⟩
  · rw [hq "page" (by decide)]
    decide
  · obtain ⟨pos, v, hin, hv, hg⟩ := hp "id" (by decide)
    have hpos : pos = 1 := by
      have h1 : (("id", pos) : String × Nat) ∈ [(("id", 1) : String × Nat)] := hin
      simp only [List.mem_singleton, Prod.mk.injEq, true_and] at h1
      exact h1
    subst hpos
    have h42 : (pathSegments (sampleEnv.standardizeUrl
        (internal_unescaper sampleEnv { registeredResources := [(endpoint_users_id, 7)] }
          "/users/42")))[1]? = some "42" := by decide
    rw [h42] at hv
    cases hv
    exact hg

theorem ResourceMap.place_perm (less : HttpEndpoint → HttpEndpoint → Bool)
    (t : List (HttpEndpoint × HttpResource)) (key : HttpEndpoint) (value : HttpResource) :
    (ResourceMap.place less t key value).Perm ((key, value) :: t) := by
  induction t with
  | nil => exact List.Perm.refl _
  | cons hd rest ih =>
    obtain ⟨k, v⟩ := hd
    unfold ResourceMap.place
    split
    · exact List.Perm.refl _
    · exact (List.Perm.cons _ ih).trans (List.Perm.swap _ _ _)

theorem ResourceMap.assignValue_keys (t : List (HttpEndpoint × HttpResource))
    (key : HttpEndpoint) (value : HttpResource) :
    (ResourceMap.assignValue t key value).map Prod.fst = t.map Prod.fst := by
  induction t with
  | nil => rfl
  | cons hd rest ih =>
    obtain ⟨k, v⟩ := hd
    unfold ResourceMap.assignValue
    split
    · rfl
    · simp only [List.map_cons, ih]

theorem ResourceMap.valid_iff_keys (t : List (HttpEndpoint × HttpResource)) :
    ResourceMap.Valid t ↔ (t.map Prod.fst).Pairwise (fun a b => a.sameKey b = false) := by
  unfold ResourceMap.Valid
  rw [List.pairwise_map]

theorem ResourceMap.assignValue_mem (t : List (HttpEndpoint × HttpResource))
    (key : HttpEndpoint) (value : HttpResource)
    (h : ∃ it ∈ t, it.1.sameKey key = true) :
    ∃ k, k.sameKey key = true ∧ (k, value) ∈ ResourceMap.assignValue t key value := by
  induction t with
  | nil => obtain ⟨it, hit, _⟩ := h; cases hit
  | cons hd rest ih =>
    obtain ⟨k, v⟩ := hd
    unfold ResourceMap.assignValue
    by_cases hk : k.sameKey key = true
    · rw [if_pos hk]
      exact ⟨k, hk, List.mem_cons_self _ _⟩
    · rw [if_neg hk]
      obtain ⟨it, hit, hsame⟩ := h
      rcases List.mem_cons.mp hit with heq | hin
      · subst heq; exact absurd hsame hk
      · obtain ⟨k', hk', hmem⟩ := ih ⟨it, hin, hsame⟩
        exact ⟨k', hk', List.mem_cons_of_mem _ hmem⟩

/-- The map write keeps the keys unique. -/
theorem ResourceMap.insert_valid (less : HttpEndpoint → HttpEndpoint → Bool)
    (t : List (HttpEndpoint × HttpResource)) (key : HttpEndpoint) (value : HttpResource)
    (hv : ResourceMap.Valid t) : ResourceMap.Valid (ResourceMap.insert less t key value) := by
  unfold ResourceMap.insert
  split
  · rw [ResourceMap.valid_iff_keys, ResourceMap.assignValue_keys, ← ResourceMap.valid_iff_keys]
    exact hv
  · rename_i hc
    have h0 : ResourceMap.count t key = 0 := Nat.eq_zero_of_not_pos hc
    have hnone := (ResourceMap.count_eq_zero_iff t key).mp h0
    have hcons : ResourceMap.Valid ((key, value) :: t) := by
      unfold ResourceMap.Valid
      refine List.pairwise_cons.mpr ⟨fun b hb => ?_, hv⟩
      rw [HttpEndpoint.sameKey_comm]
      exact hnone b hb
    unfold ResourceMap.Valid
    refine (List.Perm.pairwise_iff ?_ (ResourceMap.place_perm less t key value)).mpr hcons
    intro x y hxy
    rw [HttpEndpoint.sameKey_comm]
    exact hxy

/-- The map write binds the value to a key that is the same key as the written one. -/
theorem ResourceMap.insert_mem (less : HttpEndpoint → HttpEndpoint → Bool)
    (t : List (HttpEndpoint × HttpResource)) (key : HttpEndpoint) (value : HttpResource) :
    ∃ k, k.sameKey key = true ∧ (k, value) ∈ ResourceMap.insert less t key value := by
  unfold ResourceMap.insert
  split
  · rename_i hc
    apply ResourceMap.assignValue_mem
    by_contra hno
    have h0 : ResourceMap.count t key = 0 := by
      rw [ResourceMap.count_eq_zero_iff]
      intro it hit
      cases hs : it.1.sameKey key with
      | false => rfl
      | true => exact absurd ⟨it, hit, hs⟩ hno
    rw [h0] at hc
    exact absurd hc (lt_irrefl 0)
  · exact ⟨key, HttpEndpoint.sameKey_self key,
      (ResourceMap.place_perm less t key value).mem_iff.mpr (List.mem_cons_self _ _)⟩

/-- Reading the table depends on the key identity of the endpoint only. -/
theorem ResourceMap.at_sameKey (t : List (HttpEndpoint × HttpResource)) (a b : HttpEndpoint)
    (h : a.sameKey b = true) : ResourceMap.at t a = ResourceMap.at t b := by
  have hk : ∀ it : HttpEndpoint × HttpResource, it.1.sameKey a = it.1.sameKey b := by
    intro it
    unfold HttpEndpoint.sameKey at h ⊢
    rw [of_decide_eq_true h]
  simp only [ResourceMap.at, hk]

/-- The method `registerResource` keeps the table a map and binds the handler to the
template: reading the table at the compiled template gives the handler. -/
theorem Webserver.registerResource_spec (env : Env) (dws after : Webserver) (resource : String)
    (http_resource : HttpResource) (family : Bool)
    (hv : ResourceMap.Valid dws.registeredResources)
    (hr : dws.registerResource env resource http_resource family = Except.ok after) :
    ResourceMap.Valid after.registeredResources ∧
    ∃ e k, HttpEndpoint.ofTemplate resource family = Except.ok e ∧
      k.sameKey e = true ∧ (k, http_resource) ∈ after.registeredResources ∧
      ResourceMap.at after.registeredResources e = some http_resource := by
  unfold Webserver.registerResource at hr
  cases he : HttpEndpoint.ofTemplate resource family with
  | error err => rw [he] at hr; cases hr
  | ok e =>
    rw [he] at hr
    simp only [Except.ok.injEq] at hr
    subst hr
    have hvalid := ResourceMap.insert_valid env.endpoint_less dws.registeredResources e
      http_resource hv
    obtain ⟨k, hk, hmem⟩ := ResourceMap.insert_mem env.endpoint_less dws.registeredResources e
      http_resource
    refine ⟨hvalid, e, k, rfl, hk, hmem, ?_⟩
    rw [← ResourceMap.at_sameKey _ k e hk]
    exact ResourceMap.at_of_mem hvalid hmem

/-- Registering `/a/b` and then `/a/{x}` on an empty server gives the table with
these two keys. -/
theorem registerResource_sample :
    ((Webserver.registerResource sampleEnv {} "/a/b" 1 false).bind
      (fun dws => dws.registerResource sampleEnv "/a/{x}" 2 false)).map
        (fun dws => dws.registeredResources) =
      Except.ok [(endpoint_a_b, 1), (endpoint_a_x, 2)] := by
  rfl

/-- A compiled template has distinct parameter names. -/
theorem ofTemplate_nodup (resource : String) (family : Bool) (e : HttpEndpoint)
    (h : HttpEndpoint.ofTemplate resource family = Except.ok e) : e.get_url_pars.Nodup := by
  unfold HttpEndpoint.ofTemplate at h
  simp only at h
  split at h
  · cases h
  · split at h
    · rename_i hn
      cases h
      exact hn
    · cases h

/-- The keys of a table after a map write are the old keys and the written key. -/
theorem ResourceMap.insert_keys (less : HttpEndpoint → HttpEndpoint → Bool)
    (t : List (HttpEndpoint × HttpResource)) (key : HttpEndpoint) (value : HttpResource) :
    ∀ k ∈ (ResourceMap.insert less t key value).map Prod.fst, k = key ∨ k ∈ t.map Prod.fst := by
  intro k hk
  unfold ResourceMap.insert at hk
  split at hk
  · rw [ResourceMap.assignValue_keys] at hk
    exact Or.inr hk
  · have hperm := (ResourceMap.place_perm less t key value).map Prod.fst
    have := hperm.mem_iff.mp hk
    simpa using this

/-- The method `registerResource` keeps every key a compiled template, so every key
of a table built by it has distinct parameter names. -/
theorem Webserver.registerResource_registered (env : Env) (dws after : Webserver)
    (resource : String) (http_resource : HttpResource) (family : Bool)
    (hreg : ResourceMap.Registered dws.registeredResources)
    (hr : dws.registerResource env resource http_resource family = Except.ok after) :
    ResourceMap.Registered after.registeredResources ∧
    ∀ it ∈ after.registeredResources, it.1.get_url_pars.Nodup := by
  have hres : ResourceMap.Registered after.registeredResources := by
    unfold Webserver.registerResource at hr
    cases he : HttpEndpoint.ofTemplate resource family with
    | error err => rw [he] at hr; cases hr
    | ok e =>
      rw [he] at hr
      simp only [Except.ok.injEq] at hr
      subst hr
      intro it hit
      have hk := ResourceMap.insert_keys env.endpoint_less dws.registeredResources e
        http_resource it.1 (List.mem_map_of_mem Prod.fst hit)
      rcases hk with hk | hk
      · exact ⟨resource, family, by rw [hk]; exact he⟩
      · obtain ⟨old, hold, hfst⟩ := List.mem_map.mp hk
        obtain ⟨r, f, hof⟩ := hreg old hold
        exact ⟨r, f, by rw [← hfst]; exact hof⟩
  refine ⟨hres, fun it hit => ?_⟩
  obtain ⟨r, f, hof⟩ := hres it hit
  exact ofTemplate_nodup r f it.1 hof

/-- Before the loop nothing is seen and nothing is found. -/
theorem scan_start_exact (endpoint : HttpEndpoint) : ScanState.Exact [] endpoint {} :=
  ⟨fun _ => ⟨rfl, fun it hit => by cases hit⟩, fun h => by cases h⟩

/-- One step of the scan loop extends what is known about the locals from the entries
seen so far to these entries and the entry just looked at. -/
theorem scanStep_exact (endpoint : HttpEndpoint) (seen : List (HttpEndpoint × HttpResource))
    (s : ScanState) (it : HttpEndpoint × HttpResource)
    (hs : ScanState.Exact seen endpoint s) :
    ScanState.Exact (seen ++ [it]) endpoint (scanStep endpoint s it) := by
  obtain ⟨hnone, hsome⟩ := hs
  unfold scanStep
  cases hf : s.found with
  | false =>
    obtain ⟨hlen, hno⟩ := hnone hf
    rw [if_pos (Or.inl hlen)]
    by_cases hm : it.1.match_url endpoint = true
    · rw [if_pos hm]
      refine ⟨(fun h => nomatch h), fun _ => ⟨rfl, seen, it.2, [], rfl, hm, ?_, ?_⟩⟩
      · intro x hx hxm
        rcases List.mem_append.mp hx with hx | hx
        · rw [hno x hx] at hxm; cases hxm
        · rw [List.mem_singleton.mp hx]
      · intro x hx hxm
        rw [hno x hx] at hxm; cases hxm
    · rw [if_neg hm]
      refine ⟨fun _ => ⟨hlen, ?_⟩, fun h => by rw [hf] at h; cases h⟩
      intro x hx
      rcases List.mem_append.mp hx with hx | hx
      · exact hno x hx
      · rw [List.mem_singleton.mp hx]
        simpa using hm
  | true =>
    obtain ⟨hlen, pre, h, post, hsplit, hmatch, hmax, hfirst⟩ := hsome hf
    have hkeep : ∀ (hle : it.1.match_url endpoint = true →
        it.1.get_url_pieces.length ≤ s.matchingEndpoint.get_url_pieces.length),
        ScanState.Exact (seen ++ [it]) endpoint s := by
      intro hle
      refine ⟨fun h0 => absurd (hf.symm.trans h0) (by decide),
        fun _ => ⟨hlen, pre, h, post ++ [it], ?_, hmatch, ?_, hfirst⟩⟩
      · rw [hsplit]; simp
      · intro x hx hxm
        rcases List.mem_append.mp hx with hx | hx
        · exact hmax x hx hxm
        · rw [List.mem_singleton.mp hx] at hxm ⊢
          exact hle hxm
    by_cases hc : s.len = -1 ∨ (it.1.get_url_pieces.length : Int) > s.len
    · rw [if_pos hc]
      have hgt : s.matchingEndpoint.get_url_pieces.length < it.1.get_url_pieces.length := by
        rcases hc with h1 | h2
        · rw [hlen] at h1
          have : (0 : Int) ≤ (s.matchingEndpoint.get_url_pieces.length : Int) :=
            Int.natCast_nonneg _
          omega
        · rw [hlen] at h2
          exact Int.ofNat_lt.mp h2
      by_cases hm : it.1.match_url endpoint = true
      · rw [if_pos hm]
        refine ⟨(fun h0 => nomatch h0), fun _ => ⟨rfl, seen, it.2, [], rfl, hm, ?_, ?_⟩⟩
        · intro x hx hxm
          rcases List.mem_append.mp hx with hx | hx
          · exact le_of_lt (lt_of_le_of_lt (hmax x hx hxm) hgt)
          · rw [List.mem_singleton.mp hx]
        · intro x hx hxm
          exact lt_of_le_of_lt (hmax x hx hxm) hgt
      · rw [if_neg hm]
        exact hkeep (fun h0 => absurd h0 hm)
    · rw [if_neg hc]
      refine hkeep (fun _ => ?_)
      have hc2 : ¬ (it.1.get_url_pieces.length : Int) > s.len := fun h0 => hc (Or.inr h0)
      rw [hlen] at hc2
      exact Int.ofNat_le.mp (not_lt.mp hc2)

/-- The scan loop over `rest`, started from locals that are exact for `seen`, ends
with locals that are exact for `seen ++ rest`. -/
theorem scan_foldl_exact (endpoint : HttpEndpoint) :
    ∀ (rest seen : List (HttpEndpoint × HttpResource)) (s : ScanState),
      ScanState.Exact seen endpoint s →
      ScanState.Exact (seen ++ rest) endpoint (rest.foldl (scanStep endpoint) s) := by
  intro rest
  induction rest with
  | nil =>
    intro seen s hs
    simpa using hs
  | cons it rest ih =>
    intro seen s hs
    have h := ih (seen ++ [it]) (scanStep endpoint s it) (scanStep_exact endpoint seen s it hs)
    simpa using h

/-- A table has at most one first longest match: two of them are the same entry at
the same position. -/
theorem FirstLongestMatch.unique {t : List (HttpEndpoint × HttpResource)}
    {endpoint : HttpEndpoint} {pre post pre' post' : List (HttpEndpoint × HttpResource)}
    {e e' : HttpEndpoint} {h h' : HttpResource}
    (h1 : FirstLongestMatch t endpoint pre e h post)
    (h2 : FirstLongestMatch t endpoint pre' e' h' post') :
    pre' = pre ∧ e' = e ∧ h' = h ∧ post' = post := by
  obtain ⟨hsplit, hmatch, hmax, hfirst⟩ := h1
  obtain ⟨hsplit', hmatch', hmax', hfirst'⟩ := h2
  have hmem : (e, h) ∈ t := by rw [hsplit]; simp
  have hmem' : (e', h') ∈ t := by rw [hsplit']; simp
  have hle : e'.get_url_pieces.length ≤ e.get_url_pieces.length := hmax (e', h') hmem' hmatch'
  have hle' : e.get_url_pieces.length ≤ e'.get_url_pieces.length := hmax' (e, h) hmem hmatch
  have heq : pre ++ (e, h) :: post = pre' ++ (e', h') :: post' := by
    rw [← hsplit, ← hsplit']
  rcases List.append_eq_append_iff.mp heq with ⟨mid, hpre, hrest⟩ | ⟨mid, hpre, hrest⟩
  · cases mid with
    | nil =>
      simp only [List.append_nil] at hpre
      simp only [List.nil_append, List.cons.injEq, Prod.mk.injEq] at hrest
      exact ⟨hpre, hrest.1.1.symm, hrest.1.2.symm, hrest.2.symm⟩
    | cons x mid =>
      simp only [List.cons_append, List.cons.injEq] at hrest
      have hin : (e, h) ∈ pre' := by
        rw [hpre, ← hrest.1]; simp
      have hlt := hfirst' (e, h) hin hmatch
      simp only at hlt
      omega
  · cases mid with
    | nil =>
      simp only [List.append_nil] at hpre
      simp only [List.nil_append, List.cons.injEq, Prod.mk.injEq] at hrest
      exact ⟨hpre.symm, hrest.1.1, hrest.1.2, hrest.2⟩
    | cons x mid =>
      simp only [List.cons_append, List.cons.injEq] at hrest
      have hin : (e', h') ∈ pre := by
        rw [hpre, ← hrest.1]; simp
      have hlt := hfirst (e', h') hin hmatch'
      simp only at hlt
      omega

/-- C11: the pattern-scan loop of `answerToConnection` (lines 584-599, run when the
path is not an exact key) ends with `found` true if and only if at least one entry of
`registeredResources` matches the request; and when found, `matchingEndpoint` is the
key of the first entry, in iteration order, among the matching entries whose number
of url pieces is greatest: it matches, no matching entry has more pieces, every
matching entry before it has strictly fewer.  That entry is the only one with these
properties, so the choice is determined by the table and the path. -/
theorem scan_selects_first_longest_match (t : List (HttpEndpoint × HttpResource))
    (endpoint : HttpEndpoint) :
    ((scanResources t endpoint).found = true ↔
      ∃ it ∈ t, it.1.match_url endpoint = true) ∧
    ((scanResources t endpoint).found = true →
      ∃ pre h post,
        FirstLongestMatch t endpoint pre (scanResources t endpoint).matchingEndpoint h post ∧
        ∀ (pre' : List (HttpEndpoint × HttpResource)) (e' : HttpEndpoint) (h' : HttpResource)
          (post' : List (HttpEndpoint × HttpResource)),
          FirstLongestMatch t endpoint pre' e' h' post' →
          pre' = pre ∧ e' = (scanResources t endpoint).matchingEndpoint ∧ h' = h ∧
            post' = post) := by
  have hexact : ScanState.Exact t endpoint (scanResources t endpoint) := by
    have h := scan_foldl_exact endpoint t [] {} (scan_start_exact endpoint)
    simpa [scanResources] using h
  obtain ⟨hnone, hsome⟩ := hexact
  refine ⟨⟨fun hf => ?_, fun hex => ?_⟩, fun hf => ?_⟩
  · obtain ⟨_, pre, h, post, hsplit, hmatch, _, _⟩ := hsome hf
    have hmem : ∀ l : List (HttpEndpoint × HttpResource),
        l = pre ++ ((scanResources t endpoint).matchingEndpoint, h) :: post →
        ((scanResources t endpoint).matchingEndpoint, h) ∈ l := by
      intro l hl
      rw [hl]
      simp
    exact ⟨((scanResources t endpoint).matchingEndpoint, h), hmem t hsplit, hmatch⟩
  · cases hf : (scanResources t endpoint).found with
    | true => rfl
    | false =>
      obtain ⟨it, hit, hm⟩ := hex
      rw [(hnone hf).2 it hit] at hm
      cases hm
  · obtain ⟨_, pre, h, post, hflm⟩ := hsome hf
    exact ⟨pre, h, post, hflm, fun pre' e' h' post' h2 => FirstLongestMatch.unique hflm h2⟩

/-- The scan on `/a/b` over the family `/a`, then `/{y}/{z}`, then `/a/{x}`: all three
match, the last two have the most pieces, and the earlier of them is selected; with
nothing registered, or only `/users/{id}`, nothing is found. -/
theorem scan_sample :
    (scanResources [(family_a, 1), (endpoint_y_z, 2), (endpoint_a_x, 3)]
      (HttpEndpoint.ofUrl "/a/b")) = { len := 2, found := true, matchingEndpoint := endpoint_y_z } ∧
    (scanResources [(family_a, 1), (endpoint_a_x, 3), (endpoint_y_z, 2)]
      (HttpEndpoint.ofUrl "/a/b")) = { len := 2, found := true, matchingEndpoint := endpoint_a_x } ∧
    (scanResources [] (HttpEndpoint.ofUrl "/a/b")).found = false ∧
    (scanResources [(endpoint_users_id, 7)] (HttpEndpoint.ofUrl "/a/b")).found = false := by
  decide

end httpserver
